import Mathlib

/-!
# PDAL: `filters.transformation` and the QFIT reader header

A shallow embedding of `src/filters/TransformationFilter.cpp` and of the code
in `src/include/pdal/drivers/qfit/Reader.hpp` (the byte-swap macros and the
inline members), followed by the properties proved about them.

Conventions of the embedding.

* A C++ `double` is a rational number: arithmetic is exact.  Rounding and the
  special values (infinities, NaN) of IEEE arithmetic are outside the model.
  The finite range is modelled where an outcome of the program depends on it:
  the extraction of a `double` from a stream fails on a number that is too
  large for a `double`.  A quotient by zero, which the program evaluates to an
  infinity or a NaN, is the one operation whose value in the model (zero) has
  no counterpart in the program; no theorem below depends on such a value.
* A stream or string is a list of characters.
* A function that can throw `pdal_error` returns `Except String _`, the string
  being the text handed to the exception.
* Member functions take the object as their first argument and return its new
  state.
-/

namespace pdal

/-! ## Points and point views -/

namespace Dimension

/-- The dimensions of a point table: `Dimension::Id::X`, `Y`, `Z`, and every
other dimension the table may carry. -/
inductive Id where
  | X : Id
  | Y : Id
  | Z : Id
  | other : Nat → Id
  deriving DecidableEq, Repr

end Dimension

/-- The fields of the point a `PointRef` currently refers to, read as doubles. -/
def PointRef : Type := Dimension.Id → ℚ

namespace PointRef

/-- The call `point.getFieldAs<double>(dim)`. -/
def getFieldAs (point : PointRef) (dim : Dimension.Id) : ℚ :=
  point dim

/-- The call `point.setField(dim, val)`: field `dim` is overwritten, the other
fields are kept. -/
def setField (point : PointRef) (dim : Dimension.Id) (val : ℚ) : PointRef :=
  fun d => if d = dim then val else point d

/-- A point with the given coordinates and every other field zero. -/
def ofXYZ (x y z : ℚ) : PointRef :=
  fun d =>
    match d with
    | Dimension.Id.X => x
    | Dimension.Id.Y => y
    | Dimension.Id.Z => z
    | Dimension.Id.other _ => 0

end PointRef

/-- A `PointView`: its points in `PointId` order, its spatial reference (the
text of it; empty when none is set), and whether products derived from the
points are still valid. -/
structure PointView where
  points : List PointRef
  m_spatialReference : List Char
  productsValid : Bool

namespace PointView

/-- The call `view.size()`. -/
def size (view : PointView) : Nat :=
  view.points.length

/-- The call `view.invalidateProducts()`. -/
def invalidateProducts (view : PointView) : PointView :=
  { view with productsValid := false }

end PointView

/-! ## The transformation matrix -/

/-- The class `TransformationFilter::Transform`: `Size = 16` doubles, stored
row-major (`RowSize = ColSize = 4`), indexed by `operator[]`. -/
def Transform : Type := Fin 16 → ℚ

namespace Transform

/-- The constant `Transform::RowSize`. -/
def RowSize : Nat := 4

/-- The constant `Transform::ColSize`. -/
def ColSize : Nat := 4

/-- The constant `Transform::Size`. -/
def Size : Nat := RowSize * ColSize

/-- The constructor `Transform(const ArrayType& arr)`, from the sixteen values
listed row by row (a missing value reads as zero). -/
def ofList (arr : List ℚ) : Transform :=
  fun i => arr.getD i.val 0

/-- The read `xform[i]` for an index held in a `size_t`. -/
def get (xform : Transform) (i : Nat) : ℚ :=
  if h : i < 16 then xform ⟨i, h⟩ else 0

/-- The assignment `xform[i] = entry`. -/
def set (xform : Transform) (i : Nat) (entry : ℚ) : Transform :=
  fun j => if j.val = i then entry else xform j

/-- The identity matrix `1 0 0 0 / 0 1 0 0 / 0 0 1 0 / 0 0 0 1`. -/
def identity : Transform :=
  ofList [1, 0, 0, 0, 0, 1, 0, 0, 0, 0, 1, 0, 0, 0, 0, 1]

end Transform

/-! ## Reading a double from a stream

The loop of `operator>>` is driven by `matrix >> entry`, the formatted
extraction of a `double` of the C++ standard library.  It is modelled here for
the classic locale: leading white space is skipped, then the longest text of
the shape `[+-] digits [. digits] [(e|E) [+-] digits]` is taken from the stream
and converted.  The extraction fails when the stream is at its end after the
white space, when the text taken is not a complete number (no digit in the
mantissa, or an exponent letter without exponent digits), or when the number
is outside the range of a `double`: the conversion (`strtod`) then returns an
infinity and the library sets `failbit`.  A number too small for a `double` is
no failure.
-/

/-- The white space of the classic locale (`std::isspace`): space, tab, line
feed, vertical tab, form feed, carriage return. -/
def isSpace (c : Char) : Bool :=
  c = ' ' || c = '\t' || c = '\n' || c = Char.ofNat 11 || c = Char.ofNat 12 || c = '\r'

/-- The bound of the range of a `double`: `2^1024 - 2^970`, half way between the
largest `double`, `2^1024 - 2^971`, and `2^1024`.  A number of smaller
magnitude converts to a finite `double`; from this magnitude on the conversion
rounds to an infinity. -/
def doubleLimit : ℚ := 2 ^ 1024 - 2 ^ 970

/-- What `num_get` has taken of a number so far. -/
structure FloatScan where
  first : Bool
  negative : Bool
  mantissa : Nat
  fraction : Nat
  foundMantissa : Bool
  foundDec : Bool
  foundSci : Bool
  expFirst : Bool
  expNegative : Bool
  exponent : Nat
  foundExp : Bool
  deriving DecidableEq, Repr

namespace FloatScan

/-- Nothing taken yet. -/
def start : FloatScan :=
  { first := true, negative := false, mantissa := 0, fraction := 0,
    foundMantissa := false, foundDec := false, foundSci := false,
    expFirst := false, expNegative := false, exponent := 0, foundExp := false }

/-- Take one more character, or refuse it.  A digit extends the mantissa or,
after the exponent letter, the exponent; a sign is taken as the first character
and right after the exponent letter; the decimal point is taken once and only
before the exponent; the exponent letter is taken once and only after a digit
of the mantissa. -/
def step (st : FloatScan) (c : Char) : Option FloatScan :=
  if c.isDigit then
    if st.foundSci then
      some { st with first := false, expFirst := false, foundExp := true,
                     exponent := 10 * st.exponent + (c.toNat - 48) }
    else
      some { st with first := false, foundMantissa := true,
                     mantissa := 10 * st.mantissa + (c.toNat - 48),
                     fraction := if st.foundDec then st.fraction + 1 else st.fraction }
  else if c = '+' || c = '-' then
    if st.first then
      some { st with first := false, negative := (c = '-') }
    else if st.expFirst then
      some { st with expFirst := false, expNegative := (c = '-') }
    else none
  else if c = '.' then
    if !st.foundDec && !st.foundSci then
      some { st with first := false, foundDec := true }
    else none
  else if c = 'e' || c = 'E' then
    if !st.foundSci && st.foundMantissa then
      some { st with foundSci := true, expFirst := true }
    else none
  else none

/-- Take characters for as long as they are accepted; the result is what was
taken and what is left in the stream. -/
def scan : FloatScan → List Char → FloatScan × List Char
  | st, [] => (st, [])
  | st, c :: cs =>
    match st.step c with
    | some st1 => scan st1 cs
    | none => (st, c :: cs)

/-- The conversion of the text taken: the number it denotes, or nothing when it
is not a complete number or when the number is outside the range of a
`double`. -/
def value (st : FloatScan) : Option ℚ :=
  if st.foundMantissa && (!st.foundSci || st.foundExp) then
    let m : ℚ := (st.mantissa : ℚ) / (10 : ℚ) ^ st.fraction
    let m := if st.expNegative then m / (10 : ℚ) ^ st.exponent else m * (10 : ℚ) ^ st.exponent
    let v := if st.negative then -m else m
    if -doubleLimit < v ∧ v < doubleLimit then some v else none
  else none

end FloatScan

/-- The extraction `stream >> entry` for a `double`: the value read and the rest
of the stream, or nothing when the extraction fails. -/
def readDouble (stream : List Char) : Option (ℚ × List Char) :=
  match stream.dropWhile isSpace with
  | [] => none
  | c :: cs =>
    match FloatScan.scan FloatScan.start (c :: cs) with
    | (st, rest) =>
      match st.value with
      | some entry => some (entry, rest)
      | none => none

/-- Modelled from the spec: `pdal::FileUtils` (`fileExists`,
`readFileIntoString`) is not among the sources; the spec says that the text "is
first checked against the filesystem as a path; if it names an existing file,
the file's contents are used as the matrix text instead of the literal string".
A value of this type is the files the program can see. -/
structure FileUtils where
  fileExists : List Char → Bool
  readFileIntoString : List Char → List Char

namespace Transform

/-- The message of the exception thrown on a seventeenth entry. -/
def tooManyEntries : String :=
  "filters.transformation: " ++
    ("Too many entries in transformation matrix, should be " ++ toString Size)

/-- The message of the exception thrown when the scan ends with `i` entries,
`i` not being `Size`. -/
def tooFewEntries (i : Nat) : String :=
  "filters.transformation: " ++
    ("Too few entries in transformation matrix: " ++ toString i ++
      " (should be " ++ toString Size ++ ")")

/-- The text that is scanned: lines 66 to 77 of `operator>>`.  The whole stream
is the argument; when the argument names an existing file, the contents of the
file take its place. -/
def matrixText (fs : FileUtils) (arg : List Char) : List Char :=
  if fs.fileExists arg then fs.readFileIntoString arg else arg

/-- The loop `while (matrix >> entry)` of `operator>>`, entered with `i`
entries stored: the count and the matrix when the extraction fails, or the
exception thrown by the body.  The body throws before a seventeenth entry is
stored, so the loop is entered at most `Size + 1` times. -/
def scanEntries (matrix : List Char) (i : Nat) (xform : Transform) :
    Except String (Nat × Transform) :=
  match readDouble matrix with
  | none => Except.ok (i, xform)
  | some (entry, rest) =>
    if h : i + 1 > Size then
      Except.error tooManyEntries
    else
      scanEntries rest (i + 1) (xform.set i entry)
termination_by Size + 1 - i
decreasing_by
  simp only [Size, RowSize, ColSize] at h ⊢
  omega

/-- The function `operator>>(std::istream&, Transform&)`: `inp` is the
content of the stream, `xform` the matrix on entry. -/
def parse (fs : FileUtils) (inp : List Char) (xform : Transform) : Except String Transform :=
  match scanEntries (matrixText fs inp) 0 xform with
  | Except.error msg => Except.error msg
  | Except.ok (i, xform) =>
    if i ≠ Size then Except.error (tooFewEntries i) else Except.ok xform

/-- The function `operator<<(std::ostream&, const Transform&)`: the characters
appended to `out`.  `printDouble` is the insertion `out << double` of the
standard library, whose result depends on the flags of the stream. -/
def format (printDouble : ℚ → List Char) (xform : Transform) (out : List Char) : List Char :=
  (List.range RowSize).foldl
    (fun out r =>
      (List.range ColSize).foldl
        (fun out c =>
          let out := if c ≠ 0 then out ++ [' ', ' '] else out
          out ++ printDouble (xform.get (r * ColSize + c)))
        out ++ ['\n'])
    out

end Transform

/-! ## The inverse of an affine transformation (Eigen)

`initialize` calls `Eigen::Affine3d::inverse()`.  For the mode `Affine` Eigen
inverts the upper-left 3x3 block `L` by cofactors (`1 / det` times the
transposed cofactor matrix, with no test of the determinant), sets the
translation to `-(L⁻¹ * t)` and sets the last row to `0 0 0 1`.
-/

namespace Eigen

/-- The type `Matrix3d`, indexed `(row, column)`. -/
def Matrix3d : Type := Fin 3 → Fin 3 → ℚ

/-- The type `Matrix4d`, indexed `(row, column)`; also the matrix of an
`Affine3d`. -/
def Matrix4d : Type := Fin 4 → Fin 4 → ℚ

/-- The function `cofactor_3x3<i, j>` of Eigen. -/
def cofactor_3x3 (m : Matrix3d) (i j : Fin 3) : ℚ :=
  m (i + 1) (j + 1) * m (i + 2) (j + 2) - m (i + 1) (j + 2) * m (i + 2) (j + 1)

/-- The determinant Eigen computes for a 3x3 inverse: the cofactors of column 0
times column 0. -/
def det3 (m : Matrix3d) : ℚ :=
  cofactor_3x3 m 0 0 * m 0 0 + cofactor_3x3 m 1 0 * m 1 0 + cofactor_3x3 m 2 0 * m 2 0

/-- The call `m.inverse()` for a `Matrix3d`. -/
def inverse3 (m : Matrix3d) : Matrix3d :=
  let invdet := 1 / det3 m
  fun r c => cofactor_3x3 m c r * invdet

/-- The block `T.linear()` of an `Affine3d`. -/
def linear (T : Matrix4d) : Matrix3d :=
  fun r c => T r.castSucc c.castSucc

/-- The column `T.translation()` of an `Affine3d`. -/
def translation (T : Matrix4d) : Fin 3 → ℚ :=
  fun r => T r.castSucc 3

/-- The call `T.inverse()` for an `Affine3d`. -/
def affineInverse (T : Matrix4d) : Matrix4d :=
  let linv := inverse3 (linear T)
  let t := translation T
  let tinv : Fin 3 → ℚ := fun r => -(linv r 0 * t 0 + linv r 1 * t 1 + linv r 2 * t 2)
  fun r c =>
    match r, c with
    | ⟨0, _⟩, ⟨0, _⟩ => linv 0 0
    | ⟨0, _⟩, ⟨1, _⟩ => linv 0 1
    | ⟨0, _⟩, ⟨2, _⟩ => linv 0 2
    | ⟨0, _⟩, ⟨_ + 3, _⟩ => tinv 0
    | ⟨1, _⟩, ⟨0, _⟩ => linv 1 0
    | ⟨1, _⟩, ⟨1, _⟩ => linv 1 1
    | ⟨1, _⟩, ⟨2, _⟩ => linv 1 2
    | ⟨1, _⟩, ⟨_ + 3, _⟩ => tinv 1
    | ⟨2, _⟩, ⟨0, _⟩ => linv 2 0
    | ⟨2, _⟩, ⟨1, _⟩ => linv 2 1
    | ⟨2, _⟩, ⟨2, _⟩ => linv 2 2
    | ⟨2, _⟩, ⟨_ + 3, _⟩ => tinv 2
    | ⟨_ + 3, _⟩, ⟨_ + 3, _⟩ => 1
    | ⟨_ + 3, _⟩, _ => 0

end Eigen

/-! ## The filter -/


/-- The state of a `TransformationFilter`: the matrix `*m_matrix`, the options
`m_invert` and `m_overrideSrs`, the spatial reference of the stage (set by
`setSpatialReference`), and the lines written to the log. -/
structure TransformationFilter where
  m_matrix : Transform
  m_invert : Bool
  m_overrideSrs : List Char
  m_srs : List Char
  m_log : List String

namespace TransformationFilter

/-- The member `TransformationFilter::processOne`.  The three coordinates are
read first; the divisor `s` and the three new coordinates are computed from the
values read.  The function always returns `true`; the model returns the point
it leaves behind. -/
def processOne (self : TransformationFilter) (point : PointRef) : PointRef :=
  let matrix := self.m_matrix
  let x := point.getFieldAs Dimension.Id.X
  let y := point.getFieldAs Dimension.Id.Y
  let z := point.getFieldAs Dimension.Id.Z
  let s := x * matrix 12 + y * matrix 13 + z * matrix 14 + matrix 15
  let point := point.setField Dimension.Id.X
    ((x * matrix 0 + y * matrix 1 + z * matrix 2 + matrix 3) / s)
  let point := point.setField Dimension.Id.Y
    ((x * matrix 4 + y * matrix 5 + z * matrix 6 + matrix 7) / s)
  let point := point.setField Dimension.Id.Z
    ((x * matrix 8 + y * matrix 9 + z * matrix 10 + matrix 11) / s)
  point

/-- The call `setSpatialReference(srs)` of the stage. -/
def setSpatialReference (self : TransformationFilter) (srs : List Char) : TransformationFilter :=
  { self with m_srs := srs }

/-- The matrix `m` that `initialize` fills from `*m_matrix` with the comma
initialiser, row by row. -/
def toMatrix4d (matrix : Transform) : Eigen.Matrix4d :=
  fun r c => matrix.get (4 * r.val + c.val)

/-- The block of `initialize` that is run when `m_invert` is set (lines 150 to
173): the matrix is copied into `m`, `Tinv` is the inverse of the affine
transformation with that matrix, and the twelve entries `matrix[0]` to
`matrix[11]` are overwritten with the first three rows of `Tinv`. -/
def invert (matrix : Transform) : Transform :=
  let T : Eigen.Matrix4d := toMatrix4d matrix
  let Tinv := Eigen.affineInverse T
  let matrix := matrix.set 0 (Tinv 0 0)
  let matrix := matrix.set 1 (Tinv 0 1)
  let matrix := matrix.set 2 (Tinv 0 2)
  let matrix := matrix.set 3 (Tinv 0 3)
  let matrix := matrix.set 4 (Tinv 1 0)
  let matrix := matrix.set 5 (Tinv 1 1)
  let matrix := matrix.set 6 (Tinv 1 2)
  let matrix := matrix.set 7 (Tinv 1 3)
  let matrix := matrix.set 8 (Tinv 2 0)
  let matrix := matrix.set 9 (Tinv 2 1)
  let matrix := matrix.set 10 (Tinv 2 2)
  let matrix := matrix.set 11 (Tinv 2 3)
  matrix

/-- The member `TransformationFilter::initialize` (spelt `initialise` here, the
other spelling being a keyword).  The body has no `throw`, and the inverse of
Eigen reports nothing, so every path ends in `Except.ok`. -/
def initialise (self : TransformationFilter) : Except String TransformationFilter :=
  let self :=
    if !self.m_overrideSrs.isEmpty then self.setSpatialReference self.m_overrideSrs else self
  if self.m_invert then
    Except.ok { self with m_matrix := invert self.m_matrix }
  else
    Except.ok self

/-- The warning written by `filter` and `spatialReferenceChanged`. -/
def overridingWarning : String :=
  "filters.transformation" ++ ": overriding input spatial reference."

/-- The member `TransformationFilter::filter`: the stage (its log may have
grown) and the view after the call.  Point `idx` is selected with
`point.setPointId(idx)` and rewritten by `processOne`, for `idx` from `0` to
`view.size() - 1`. -/
def filter (self : TransformationFilter) (view : PointView) : TransformationFilter × PointView :=
  let self :=
    if !view.m_spatialReference.isEmpty && !self.m_overrideSrs.isEmpty then
      { self with m_log := self.m_log ++ [overridingWarning] }
    else self
  let view := (List.range view.size).foldl
    (fun (view : PointView) idx =>
      { view with points := view.points.modify self.processOne idx })
    view
  (self, view.invalidateProducts)

/-- The member `TransformationFilter::doFilter`: the supplied matrix is
assigned to `*m_matrix`, then `filter` is run.  Nothing follows the call of
`filter`. -/
def doFilter (self : TransformationFilter) (view : PointView) (matrix : Transform) :
    TransformationFilter × PointView :=
  let self := { self with m_matrix := matrix }
  self.filter view

end TransformationFilter

/-- A stage whose matrix is `m`, with default options. -/
def stageOf (m : Transform) : TransformationFilter :=
  { m_matrix := m, m_invert := false, m_overrideSrs := [], m_srs := [], m_log := [] }


/-! ## The QFIT reader (`Reader.hpp`) -/

namespace drivers

namespace qfit

/-- A byte, the value of a `char`. -/
def Byte : Type := Fin 256

/-- The memory the macros work on, seen through `char*`: the byte at every
address. -/
def Memory : Type := Int → Byte

namespace Memory

/-- The assignment `*a = v`. -/
def write (mem : Memory) (a : Int) (v : Byte) : Memory :=
  fun b => if b = a then v else mem b

end Memory

/-- The loop `for(; first < last; ++first, --last)` of the two macros, with its
body `x = *last; *last = *first; *first = x`. -/
def swapLoop (mem : Memory) (first last : Int) : Memory :=
  if first < last then
    let x := mem last
    let mem := mem.write last (mem first)
    let mem := mem.write first x
    swapLoop mem (first + 1) (last - 1)
  else mem
termination_by (last - first).toNat
decreasing_by omega

/-- The macro `QFIT_SWAP_BE_TO_LE_N(p, n)`, `p` being the object at address
`addr`: `first` is the address of `p` and `last` is `first + n - 1`. -/
def QFIT_SWAP_BE_TO_LE_N (mem : Memory) (addr : Int) (n : Nat) : Memory :=
  let first := addr
  let last := first + (n : Int) - 1
  swapLoop mem first last

/-- The macro `QFIT_SWAP_BE_TO_LE(p)`, `p` being the object at address `addr`
and `sizeof_p` its size: `last` is `first + sizeof(p) - 1`. -/
def QFIT_SWAP_BE_TO_LE (mem : Memory) (addr : Int) (sizeof_p : Nat) : Memory :=
  let first := addr
  let last := first + (sizeof_p : Int) - 1
  swapLoop mem first last

/-- The class `pdal::drivers::qfit::Reader`, with the members its inline
functions read. -/
structure Reader where
  m_offset : Nat
  m_size : Nat
  m_numPoints : Nat

namespace Reader

/-- The member `getPointDataOffset`. -/
def getPointDataOffset (self : Reader) : Nat := self.m_offset

/-- The member `getPointDataSize`. -/
def getPointDataSize (self : Reader) : Nat := self.m_size

/-- The member `getNumPoints`. -/
def getNumPoints (self : Reader) : Nat := self.m_numPoints

end Reader

namespace iterators

namespace sequential

/-- The class `iterators::sequential::Reader`: the reader it refers to and the
index of the next point, kept by its base `StageSequentialIterator`. -/
structure Reader where
  m_reader : qfit.Reader
  m_index : Nat

namespace Reader

/-- Modelled from the spec: `StageSequentialIterator::getIndex` is not among
the sources; the spec names the value `recordIndex`, the position of the cursor
counted in records. -/
def getIndex (self : Reader) : Nat := self.m_index

/-- The member `atEndImpl`. -/
def atEndImpl (self : Reader) : Bool :=
  decide (self.getIndex ≥ self.m_reader.getNumPoints)

end Reader

end sequential

end iterators

end qfit

end drivers

/-! ## Vocabulary of the properties -/

/-- The number a text denotes as a whole: the value converted when the
extraction of a double takes every character of `tok` and succeeds, nothing
otherwise.  A text with a value is a numeric value for the program; `1e400`,
too large for a `double`, has none. -/
def numberOf (tok : List Char) : Option ℚ :=
  match FloatScan.scan FloatScan.start tok with
  | (st, []) => st.value
  | (_, _ :: _) => none

/-- The text made of the given pieces in order, each piece a separator followed
by a token. -/
def layout : List (List Char × List Char) → List Char
  | [] => []
  | (sep, tok) :: more => sep ++ tok ++ layout more

/-- A text that is empty or begins with white space: what may follow a token
without becoming part of it. -/
def delimited : List Char → Bool
  | [] => true
  | c :: _ => isSpace c

/-- The matrix after `vals` have been stored at the indices `i`, `i + 1`, ... -/
def storeFrom : List ℚ → Nat → Transform → Transform
  | [], _, xform => xform
  | v :: vs, i, xform => storeFrom vs (i + 1) (xform.set i v)

/-- A file system without files. -/
def noFiles : FileUtils :=
  { fileExists := fun _ => false, readFileIntoString := fun _ => [] }

/-- The output of `format` cut into pieces: the printed entries, each with the
separator written before it (nothing, two spaces, or the line feed that ends
the row before). -/
def formatItems (printDouble : ℚ → List Char) (m : Transform) : List (List Char × List Char) :=
  [([], printDouble (m 0)), ([' ', ' '], printDouble (m 1)),
   ([' ', ' '], printDouble (m 2)), ([' ', ' '], printDouble (m 3)),
   (['\n'], printDouble (m 4)), ([' ', ' '], printDouble (m 5)),
   ([' ', ' '], printDouble (m 6)), ([' ', ' '], printDouble (m 7)),
   (['\n'], printDouble (m 8)), ([' ', ' '], printDouble (m 9)),
   ([' ', ' '], printDouble (m 10)), ([' ', ' '], printDouble (m 11)),
   (['\n'], printDouble (m 12)), ([' ', ' '], printDouble (m 13)),
   ([' ', ' '], printDouble (m 14)), ([' ', ' '], printDouble (m 15))]

/-- The sixteen entries of a matrix, row by row. -/
def entries (m : Transform) : List ℚ :=
  [m 0, m 1, m 2, m 3, m 4, m 5, m 6, m 7, m 8, m 9, m 10, m 11, m 12, m 13, m 14, m 15]

/-- Sample text: sixteen values on four lines, with spaces, a tab, a carriage
return and line feeds between them. -/
def sampleItems : List (List Char × List Char) :=
  [([], ['2']), ([' '], ['0']), ([' '], ['0']), ([' '], ['0']),
   (['\n'], ['0']), ([' '], ['1', '.', '5']), ([' '], ['0']), ([' '], ['0']),
   (['\n', '\t'], ['0']), ([' '], ['0']), ([' ', ' '], ['-', '1', 'e', '1']), ([' '], ['0']),
   (['\r', '\n'], ['0']), ([' '], ['0']), ([' '], ['0']), ([' '], ['1'])]

/-- The values of the sample text. -/
def sampleVals : List ℚ := [2, 0, 0, 0, 0, 3 / 2, 0, 0, 0, 0, -10, 0, 0, 0, 0, 1]

/-- A sample of the insertion `out << double`: a whole number is printed as an
integer in decimal, anything else as `0.5`. -/
def samplePrint (v : ℚ) : List Char :=
  if v.den = 1 then (toString v.num).toList else ['0', '.', '5']

/-- A sample matrix with whole entries and the entry one half. -/
def sampleMatrix : Transform :=
  Transform.ofList [2, 0, 0, 0, 0, 1 / 2, 0, 0, 0, 0, -10, 0, 0, 0, 0, 1]

/-- A sample affine matrix with invertible linear part. -/
def affineMatrix : Transform :=
  Transform.ofList [2, 0, 0, 1, 0, 1, 0, 2, 0, 1, 1, 3, 0, 0, 0, 1]

/-- A sample singular matrix: the second row of the linear part is twice the
first. -/
def singularMatrix : Transform :=
  Transform.ofList [1, 2, 3, 0, 2, 4, 6, 0, 0, 0, 1, 0, 0, 0, 0, 1]

/-- The row-major product `A * B` of two 4x4 matrices: entry `4 r + c` is the
sum over `k` of `A[4 r + k] * B[4 k + c]`. -/
def matMul (A B : Transform) : Transform :=
  fun i =>
    let r := i.val / 4
    let c := i.val % 4
    A.get (4 * r) * B.get c + A.get (4 * r + 1) * B.get (4 + c)
      + A.get (4 * r + 2) * B.get (8 + c) + A.get (4 * r + 3) * B.get (12 + c)

/-- The values read by `matrix >> entry` applied again and again to a text,
up to the first extraction that fails: the leading run of numeric values. -/
inductive LeadingRun : List Char → List ℚ → Prop where
  | stop (text : List Char) (h : readDouble text = none) : LeadingRun text []
  | more (text rest : List Char) (v : ℚ) (vs : List ℚ)
      (h : readDouble text = some (v, rest)) (hrest : LeadingRun rest vs) :
      LeadingRun text (v :: vs)

/-- The matrix `1 0 0 0 / 0 1 0 0 / 0 0 1 0 / 0 0 0 k`. -/
def perspectiveMatrix (k : ℚ) : Transform :=
  Transform.ofList [1, 0, 0, 0, 0, 1, 0, 0, 0, 0, 1, 0, 0, 0, 0, k]

/-- A sample matrix with a last row other than `0 0 0 1`: the divisor is
`x + 1`. -/
def projectiveMatrix : Transform :=
  Transform.ofList [1, 0, 0, 0, 0, 1, 0, 0, 0, 0, 1, 0, 1, 0, 0, 1]

/-- The operation `invert(matrix)` in the words of the spec: the matrix is
treated "as an affine 4x4 (the upper-left 3x3 plus translation column)" and its
"standard matrix inverse" is computed; there is none when that matrix is
singular.  The affine matrix with the block `L` and the column `t` has the
inverse with the block `L⁻¹`, the column `-(L⁻¹ t)` and the last row `0 0 0 1`;
`L⁻¹` is the adjugate of `L` over its determinant. -/
def specInvert (M : Transform) : Option Transform :=
  let det := M 0 * (M 5 * M 10 - M 6 * M 9) - M 1 * (M 4 * M 10 - M 6 * M 8)
    + M 2 * (M 4 * M 9 - M 5 * M 8)
  if det = 0 then none
  else
    let l00 := (M 5 * M 10 - M 6 * M 9) / det
    let l01 := (M 2 * M 9 - M 1 * M 10) / det
    let l02 := (M 1 * M 6 - M 2 * M 5) / det
    let l10 := (M 6 * M 8 - M 4 * M 10) / det
    let l11 := (M 0 * M 10 - M 2 * M 8) / det
    let l12 := (M 2 * M 4 - M 0 * M 6) / det
    let l20 := (M 4 * M 9 - M 5 * M 8) / det
    let l21 := (M 1 * M 8 - M 0 * M 9) / det
    let l22 := (M 0 * M 5 - M 1 * M 4) / det
    some (Transform.ofList
      [l00, l01, l02, -(l00 * M 3 + l01 * M 7 + l02 * M 11),
       l10, l11, l12, -(l10 * M 3 + l11 * M 7 + l12 * M 11),
       l20, l21, l22, -(l20 * M 3 + l21 * M 7 + l22 * M 11),
       0, 0, 0, 1])

/-- The affine matrix the spec's `invert` looks at: the first three rows of `M`
over the row `0 0 0 1`. -/
def affinePart (M : Transform) : Transform :=
  Transform.ofList [M 0, M 1, M 2, M 3, M 4, M 5, M 6, M 7, M 8, M 9, M 10, M 11, 0, 0, 0, 1]

/-- The inverse of the sample affine matrix. -/
def affineMatrixInverse : Transform :=
  Transform.ofList [1 / 2, 0, 0, -(1 / 2), 0, 1, 0, -2, 0, -1, 1, -1, 0, 0, 0, 1]

/-- A sample view of two points without a spatial reference. -/
def samplePoints : PointView :=
  { points := [PointRef.ofXYZ 1 2 3, PointRef.ofXYZ 4 4 4], m_spatialReference := [],
    productsValid := true }

/-- A sample view of the one point `(4, 4, 4)`. -/
def onePoint : PointView :=
  { points := [PointRef.ofXYZ 4 4 4], m_spatialReference := [], productsValid := true }

/-! ## Properties -/

/-! ### The extraction of a double -/

theorem step_space (st : FloatScan) (c : Char) (hc : isSpace c = true) : st.step c = none := by
  simp only [isSpace, Bool.or_eq_true, decide_eq_true_eq] at hc
  rcases hc with ((((h | h) | h) | h) | h) | h <;> subst h <;> rfl

theorem scan_append (tok tail : List Char) :
    ∀ (st st1 : FloatScan), FloatScan.scan st tok = (st1, []) →
      FloatScan.scan st (tok ++ tail) = FloatScan.scan st1 tail := by
  induction tok with
  | nil =>
    intro st st1 h
    simp only [FloatScan.scan, Prod.mk.injEq, and_true] at h
    simp [h]
  | cons c cs ih =>
    intro st st1 h
    simp only [FloatScan.scan, List.cons_append] at h ⊢
    cases hstep : st.step c with
    | none => simp [hstep] at h
    | some st2 =>
      simp only [hstep] at h ⊢
      exact ih st2 st1 h

theorem scan_delimited (st : FloatScan) (tail : List Char) (h : delimited tail = true) :
    FloatScan.scan st tail = (st, tail) := by
  cases tail with
  | nil => rfl
  | cons c cs =>
    simp only [delimited] at h
    simp [FloatScan.scan, step_space st c h]

theorem numberOf_scan (tok : List Char) (v : ℚ) (h : numberOf tok = some v) :
    ∃ st, FloatScan.scan FloatScan.start tok = (st, []) ∧ st.value = some v := by
  unfold numberOf at h
  split at h
  · next st heq => exact ⟨st, heq, h⟩
  · simp at h

theorem numberOf_head (tok : List Char) (v : ℚ) (h : numberOf tok = some v) :
    ∃ c cs, tok = c :: cs ∧ isSpace c = false := by
  obtain ⟨st, hscan, hval⟩ := numberOf_scan tok v h
  cases tok with
  | nil =>
    simp only [FloatScan.scan, Prod.mk.injEq, and_true] at hscan
    subst hscan
    simp [FloatScan.value, FloatScan.start] at hval
  | cons c cs =>
    refine ⟨c, cs, rfl, ?_⟩
    cases hsp : isSpace c with
    | false => rfl
    | true =>
      simp [FloatScan.scan, step_space _ c hsp] at hscan

theorem dropWhile_separator (sep more : List Char) (c : Char)
    (hsep : ∀ a ∈ sep, isSpace a = true) (hc : isSpace c = false) :
    (sep ++ c :: more).dropWhile isSpace = c :: more := by
  induction sep with
  | nil => simp [List.dropWhile, hc]
  | cons a as ih =>
    have ha : isSpace a = true := hsep a (List.mem_cons_self a as)
    simp only [List.cons_append, List.dropWhile, ha]
    exact ih (fun b hb => hsep b (List.mem_cons_of_mem a hb))

/-- A token that stands between white space and a delimited rest is what the
next extraction reads. -/
theorem readDouble_token (sep tok tail : List Char) (v : ℚ)
    (hsep : ∀ a ∈ sep, isSpace a = true) (htok : numberOf tok = some v)
    (htail : delimited tail = true) :
    readDouble (sep ++ tok ++ tail) = some (v, tail) := by
  obtain ⟨c, cs, hcs, hc⟩ := numberOf_head tok v htok
  obtain ⟨st, hscan, hval⟩ := numberOf_scan tok v htok
  have hdrop : (sep ++ tok ++ tail).dropWhile isSpace = c :: (cs ++ tail) := by
    rw [hcs, List.append_assoc, List.cons_append]
    exact dropWhile_separator sep (cs ++ tail) c hsep hc
  have hrun : FloatScan.scan FloatScan.start (c :: (cs ++ tail)) = (st, tail) := by
    rw [← List.cons_append, ← hcs, scan_append tok tail _ st hscan]
    exact scan_delimited st tail htail
  simp only [readDouble, hdrop, hrun, hval]

/-- At white space up to the end of the stream the extraction fails. -/
theorem readDouble_space (trail : List Char) (h : ∀ a ∈ trail, isSpace a = true) :
    readDouble trail = none := by
  have hdrop : trail.dropWhile isSpace = [] := by
    rw [List.dropWhile_eq_nil_iff]
    exact h
  simp only [readDouble, hdrop]


/-! ### The loop of `operator>>` -/

theorem scanEntries_none (matrix : List Char) (i : Nat) (xform : Transform)
    (h : readDouble matrix = none) :
    Transform.scanEntries matrix i xform = Except.ok (i, xform) := by
  rw [Transform.scanEntries]
  simp only [h]

theorem scanEntries_many (matrix rest : List Char) (entry : ℚ) (i : Nat) (xform : Transform)
    (h : readDouble matrix = some (entry, rest)) (hi : 16 ≤ i) :
    Transform.scanEntries matrix i xform = Except.error Transform.tooManyEntries := by
  rw [Transform.scanEntries]
  simp only [h]
  have : i + 1 > Transform.Size := by
    simp only [Transform.Size, Transform.RowSize, Transform.ColSize]
    omega
  simp only [this, dite_true]

theorem scanEntries_store (matrix rest : List Char) (entry : ℚ) (i : Nat) (xform : Transform)
    (h : readDouble matrix = some (entry, rest)) (hi : i < 16) :
    Transform.scanEntries matrix i xform
      = Transform.scanEntries rest (i + 1) (xform.set i entry) := by
  rw [Transform.scanEntries]
  simp only [h]
  have : ¬ (i + 1 > Transform.Size) := by
    simp only [Transform.Size, Transform.RowSize, Transform.ColSize]
    omega
  simp only [this, dite_false]

theorem layout_delimited (items : List (List Char × List Char)) (tail : List Char)
    (hsep : ∀ it ∈ items, ∀ c ∈ it.1, isSpace c = true)
    (hne : ∀ it ∈ items, it.1 ≠ [])
    (htail : delimited tail = true) :
    delimited (layout items ++ tail) = true := by
  cases items with
  | nil => simpa [layout] using htail
  | cons it more =>
    obtain ⟨sep, tok⟩ := it
    have h1 : sep ≠ [] := hne (sep, tok) (List.mem_cons_self _ _)
    cases sep with
    | nil => exact absurd rfl h1
    | cons c cs =>
      have h2 : isSpace c = true :=
        hsep (c :: cs, tok) (List.mem_cons_self _ _) c (List.mem_cons_self _ _)
      simpa [layout, delimited] using h2

/-- The loop over a text of separated tokens followed by a delimited rest:
the values of the tokens are stored in order and the loop goes on with the
rest, unless a seventeenth value is met, at which the exception is thrown. -/
theorem scanEntries_layout (tail : List Char) (htail : delimited tail = true) :
    ∀ (items : List (List Char × List Char)) (vals : List ℚ) (i : Nat) (xform : Transform),
      i ≤ 16 →
      (∀ it ∈ items, ∀ c ∈ it.1, isSpace c = true) →
      (∀ it ∈ items.tail, it.1 ≠ []) →
      items.map (fun it => numberOf it.2) = vals.map some →
      Transform.scanEntries (layout items ++ tail) i xform
        = if i + items.length ≤ 16 then
            Transform.scanEntries tail (i + items.length) (storeFrom vals i xform)
          else Except.error Transform.tooManyEntries := by
  intro items
  induction items with
  | nil =>
    intro vals i xform hi _ _ htok
    have hv : vals = [] := by simpa using htok.symm
    subst hv
    simp [layout, storeFrom, hi]
  | cons it more ih =>
    intro vals i xform hi16 hsep hne htok
    obtain ⟨sep, tok⟩ := it
    cases vals with
    | nil => simp at htok
    | cons v vs =>
      simp only [List.map_cons, List.cons.injEq] at htok
      obtain ⟨hv, hvs⟩ := htok
      have hsep1 : ∀ a ∈ sep, isSpace a = true := hsep (sep, tok) (List.mem_cons_self _ _)
      have hsepm : ∀ it ∈ more, ∀ c ∈ it.1, isSpace c = true :=
        fun it hit => hsep it (List.mem_cons_of_mem _ hit)
      have hnem : ∀ it ∈ more, it.1 ≠ [] := by
        intro it hit
        exact hne it (by simpa using hit)
      have hdel : delimited (layout more ++ tail) = true :=
        layout_delimited more tail hsepm hnem htail
      have hread : readDouble (layout ((sep, tok) :: more) ++ tail)
          = some (v, layout more ++ tail) := by
        have := readDouble_token sep tok (layout more ++ tail) v hsep1 hv hdel
        simpa [layout, List.append_assoc] using this
      by_cases hi : i < 16
      · rw [scanEntries_store _ _ v i xform hread hi]
        rw [ih vs (i + 1) (xform.set i v) (by omega) hsepm
          (fun it hit => hnem it (List.mem_of_mem_tail hit)) hvs]
        have e1 : i + 1 + more.length = i + ((sep, tok) :: more).length := by
          simp only [List.length_cons]
          omega
        simp only [e1, storeFrom]
      · rw [scanEntries_many _ _ v i xform hread (by omega)]
        have : ¬ (i + ((sep, tok) :: more).length ≤ 16) := by
          simp only [List.length_cons]
          omega
        simp only [this, if_false]

theorem storeFrom_apply (vals : List ℚ) :
    ∀ (i : Nat) (xform : Transform) (j : Fin 16),
      storeFrom vals i xform j
        = if i ≤ j.val ∧ j.val < i + vals.length then vals.getD (j.val - i) 0 else xform j := by
  induction vals with
  | nil =>
    intro i xform j
    have : ¬ (i ≤ j.val ∧ j.val < i + ([] : List ℚ).length) := by
      simp only [List.length_nil]
      omega
    rw [if_neg this, storeFrom]
  | cons v vs ih =>
    intro i xform j
    rw [storeFrom, ih]
    by_cases h1 : j.val = i
    · have c1 : ¬ (i + 1 ≤ j.val ∧ j.val < i + 1 + vs.length) := by omega
      have c2 : i ≤ j.val ∧ j.val < i + (v :: vs).length := by
        simp only [List.length_cons]
        omega
      simp [c1, c2, Transform.set, h1]
    · by_cases h2 : i + 1 ≤ j.val ∧ j.val < i + 1 + vs.length
      · have c2 : i ≤ j.val ∧ j.val < i + (v :: vs).length := by
          simp only [List.length_cons]
          omega
        have e : j.val - i = (j.val - (i + 1)) + 1 := by omega
        rw [if_pos h2, if_pos c2, e, List.getD_cons_succ]
      · have c2 : ¬ (i ≤ j.val ∧ j.val < i + (v :: vs).length) := by
          simp only [List.length_cons]
          omega
        rw [if_neg h2, if_neg c2]
        simp [Transform.set, h1]

theorem storeFrom_sixteen (vals : List ℚ) (xform : Transform) (h : vals.length = 16) :
    storeFrom vals 0 xform = Transform.ofList vals := by
  funext j
  have hj := j.isLt
  have c : 0 ≤ j.val ∧ j.val < 0 + vals.length := by omega
  rw [storeFrom_apply, if_pos c]
  simp [Transform.ofList]

theorem delimited_of_space (trail : List Char) (h : ∀ a ∈ trail, isSpace a = true) :
    delimited trail = true := by
  cases trail with
  | nil => rfl
  | cons c cs => exact h c (List.mem_cons_self _ _)

theorem values_length (items : List (List Char × List Char)) (vals : List ℚ)
    (htok : items.map (fun it => numberOf it.2) = vals.map some) :
    vals.length = items.length := by
  have := congrArg List.length htok
  simpa using this.symm

/-- The scan of a text of at most sixteen separated tokens followed by white
space only: the loop ends with as many entries as there are tokens. -/
theorem scanEntries_text (items : List (List Char × List Char)) (trail : List Char)
    (vals : List ℚ) (xform : Transform)
    (hlen : items.length ≤ 16)
    (hsep : ∀ it ∈ items, ∀ c ∈ it.1, isSpace c = true)
    (hne : ∀ it ∈ items.tail, it.1 ≠ [])
    (htrail : ∀ c ∈ trail, isSpace c = true)
    (htok : items.map (fun it => numberOf it.2) = vals.map some) :
    Transform.scanEntries (layout items ++ trail) 0 xform
      = Except.ok (items.length, storeFrom vals 0 xform) := by
  rw [scanEntries_layout trail (delimited_of_space trail htrail) items vals 0 xform
    (by omega) hsep hne htok]
  have : 0 + items.length ≤ 16 := by omega
  rw [if_pos this, scanEntries_none _ _ _ (readDouble_space trail htrail)]
  simp

/-- The parse of a text of sixteen separated tokens: the matrix of their values. -/
theorem parse_layout (fs : FileUtils) (inp : List Char) (xform : Transform)
    (items : List (List Char × List Char)) (trail : List Char) (vals : List ℚ)
    (htext : Transform.matrixText fs inp = layout items ++ trail)
    (hlen : items.length = 16)
    (hsep : ∀ it ∈ items, ∀ c ∈ it.1, isSpace c = true)
    (hne : ∀ it ∈ items.tail, it.1 ≠ [])
    (htrail : ∀ c ∈ trail, isSpace c = true)
    (htok : items.map (fun it => numberOf it.2) = vals.map some) :
    Transform.parse fs inp xform = Except.ok (Transform.ofList vals) := by
  have hv : vals.length = 16 := by rw [values_length items vals htok, hlen]
  unfold Transform.parse
  rw [htext, scanEntries_text items trail vals xform (by omega) hsep hne htrail htok]
  simp [hlen, Transform.Size, Transform.RowSize, Transform.ColSize,
    storeFrom_sixteen vals xform hv]

theorem sampleItems_values :
    sampleItems.map (fun it => numberOf it.2) = sampleVals.map some := by
  simp [sampleItems, sampleVals, numberOf, FloatScan.scan, FloatScan.step, FloatScan.start,
    FloatScan.value, Char.isDigit]
  norm_num [doubleLimit]

theorem format_as_layout (pd : ℚ → List Char) (m : Transform) :
    Transform.format pd m [] = layout (formatItems pd m) ++ ['\n'] := by
  simp [Transform.format, Transform.RowSize, Transform.ColSize, List.range_succ, Transform.get,
    layout, formatItems]

theorem ofList_entries (m : Transform) : Transform.ofList (entries m) = m := by
  funext i
  fin_cases i <;> rfl

/-! ### The inverse -/

theorem det3_linear (M : Transform) :
    Eigen.det3 (Eigen.linear (TransformationFilter.toMatrix4d M))
      = (M 5 * M 10 - M 6 * M 9) * M 0 + (M 9 * M 2 - M 10 * M 1) * M 4
        + (M 1 * M 6 - M 2 * M 5) * M 8 := rfl

theorem invert_formula (M : Transform) (k : ℚ)
    (hk : k = 1 / Eigen.det3 (Eigen.linear (TransformationFilter.toMatrix4d M))) :
    TransformationFilter.invert M 0 = (M 5 * M 10 - M 6 * M 9) * k ∧
    TransformationFilter.invert M 1 = (M 9 * M 2 - M 10 * M 1) * k ∧
    TransformationFilter.invert M 2 = (M 1 * M 6 - M 2 * M 5) * k ∧
    TransformationFilter.invert M 3 = -((M 5 * M 10 - M 6 * M 9) * k * M 3
      + (M 9 * M 2 - M 10 * M 1) * k * M 7 + (M 1 * M 6 - M 2 * M 5) * k * M 11) ∧
    TransformationFilter.invert M 4 = (M 6 * M 8 - M 4 * M 10) * k ∧
    TransformationFilter.invert M 5 = (M 10 * M 0 - M 8 * M 2) * k ∧
    TransformationFilter.invert M 6 = (M 2 * M 4 - M 0 * M 6) * k ∧
    TransformationFilter.invert M 7 = -((M 6 * M 8 - M 4 * M 10) * k * M 3
      + (M 10 * M 0 - M 8 * M 2) * k * M 7 + (M 2 * M 4 - M 0 * M 6) * k * M 11) ∧
    TransformationFilter.invert M 8 = (M 4 * M 9 - M 5 * M 8) * k ∧
    TransformationFilter.invert M 9 = (M 8 * M 1 - M 9 * M 0) * k ∧
    TransformationFilter.invert M 10 = (M 0 * M 5 - M 1 * M 4) * k ∧
    TransformationFilter.invert M 11 = -((M 4 * M 9 - M 5 * M 8) * k * M 3
      + (M 8 * M 1 - M 9 * M 0) * k * M 7 + (M 0 * M 5 - M 1 * M 4) * k * M 11) ∧
    TransformationFilter.invert M 12 = M 12 ∧
    TransformationFilter.invert M 13 = M 13 ∧
    TransformationFilter.invert M 14 = M 14 ∧
    TransformationFilter.invert M 15 = M 15 := by
  subst hk
  exact ⟨rfl, rfl, rfl, rfl, rfl, rfl, rfl, rfl, rfl, rfl, rfl, rfl, rfl, rfl, rfl, rfl⟩

theorem processOne_affine (self : TransformationFilter) (point : PointRef)
    (h12 : self.m_matrix 12 = 0) (h13 : self.m_matrix 13 = 0) (h14 : self.m_matrix 14 = 0)
    (h15 : self.m_matrix 15 = 1) :
    self.processOne point = fun dim =>
      match dim with
      | Dimension.Id.X => point Dimension.Id.X * self.m_matrix 0
          + point Dimension.Id.Y * self.m_matrix 1 + point Dimension.Id.Z * self.m_matrix 2
          + self.m_matrix 3
      | Dimension.Id.Y => point Dimension.Id.X * self.m_matrix 4
          + point Dimension.Id.Y * self.m_matrix 5 + point Dimension.Id.Z * self.m_matrix 6
          + self.m_matrix 7
      | Dimension.Id.Z => point Dimension.Id.X * self.m_matrix 8
          + point Dimension.Id.Y * self.m_matrix 9 + point Dimension.Id.Z * self.m_matrix 10
          + self.m_matrix 11
      | Dimension.Id.other n => point (Dimension.Id.other n) := by
  funext dim
  simp only [TransformationFilter.processOne, PointRef.setField, PointRef.getFieldAs,
    h12, h13, h14, h15]
  cases dim <;> simp

/-- The matrix stored by the inversion undoes an affine matrix with invertible
linear part, on either side. -/
theorem processOne_invert (M : Transform) (a b : TransformationFilter) (point : PointRef)
    (ha : a.m_matrix = M) (hb : b.m_matrix = TransformationFilter.invert M)
    (h12 : M 12 = 0) (h13 : M 13 = 0) (h14 : M 14 = 0) (h15 : M 15 = 1)
    (hdet : Eigen.det3 (Eigen.linear (TransformationFilter.toMatrix4d M)) ≠ 0) :
    a.processOne (b.processOne point) = point ∧ b.processOne (a.processOne point) = point := by
  obtain ⟨k, hk⟩ : ∃ k : ℚ, k = 1 / Eigen.det3 (Eigen.linear (TransformationFilter.toMatrix4d M)) :=
    ⟨_, rfl⟩
  have hkd : k * Eigen.det3 (Eigen.linear (TransformationFilter.toMatrix4d M)) = 1 := by
    rw [hk]
    exact one_div_mul_cancel hdet
  obtain ⟨e0, e1, e2, e3, e4, e5, e6, e7, e8, e9, e10, e11, e12, e13, e14, e15⟩ :=
    invert_formula M k hk
  rw [det3_linear] at hkd
  rw [h12] at e12
  rw [h13] at e13
  rw [h14] at e14
  rw [h15] at e15
  rw [← hb] at e0 e1 e2 e3 e4 e5 e6 e7 e8 e9 e10 e11 e12 e13 e14 e15
  rw [← ha] at h12 h13 h14 h15
  have pa := fun p => processOne_affine a p h12 h13 h14 h15
  have pb := fun p => processOne_affine b p e12 e13 e14 e15
  rw [ha] at pa
  clear hk hdet h12 h13 h14 h15 e12 e13 e14 e15
  generalize M 0 = m0 at *
  generalize M 1 = m1 at *
  generalize M 2 = m2 at *
  generalize M 3 = m3 at *
  generalize M 4 = m4 at *
  generalize M 5 = m5 at *
  generalize M 6 = m6 at *
  generalize M 7 = m7 at *
  generalize M 8 = m8 at *
  generalize M 9 = m9 at *
  generalize M 10 = m10 at *
  generalize M 11 = m11 at *
  constructor
  · funext dim
    rw [pa, pb]
    cases dim
    · simp only [e0, e1, e2, e3, e4, e5, e6, e7, e8, e9, e10, e11]
      linear_combination (point Dimension.Id.X - m3) * hkd
    · simp only [e0, e1, e2, e3, e4, e5, e6, e7, e8, e9, e10, e11]
      linear_combination (point Dimension.Id.Y - m7) * hkd
    · simp only [e0, e1, e2, e3, e4, e5, e6, e7, e8, e9, e10, e11]
      linear_combination (point Dimension.Id.Z - m11) * hkd
    · rfl
  · funext dim
    rw [pa, pb]
    cases dim
    · simp only [e0, e1, e2, e3, e4, e5, e6, e7, e8, e9, e10, e11]
      linear_combination (point Dimension.Id.X) * hkd
    · simp only [e0, e1, e2, e3, e4, e5, e6, e7, e8, e9, e10, e11]
      linear_combination (point Dimension.Id.Y) * hkd
    · simp only [e0, e1, e2, e3, e4, e5, e6, e7, e8, e9, e10, e11]
      linear_combination (point Dimension.Id.Z) * hkd
    · rfl

/-! ### The pass over the view -/

theorem processOne_other (self : TransformationFilter) (point : PointRef) (dim : Dimension.Id)
    (hx : dim ≠ Dimension.Id.X) (hy : dim ≠ Dimension.Id.Y) (hz : dim ≠ Dimension.Id.Z) :
    self.processOne point dim = point dim := by
  simp [TransformationFilter.processOne, PointRef.setField, hx, hy, hz]

/-- After the first `n` turns of the loop of `filter` the points below `n` have
been rewritten and the others are untouched; the rest of the view is as it was. -/
theorem filterLoop_points (f : PointRef → PointRef) (view : PointView) (n : Nat) :
    ((List.range n).foldl
        (fun (v : PointView) idx => { v with points := v.points.modify f idx }) view).m_spatialReference
      = view.m_spatialReference ∧
    ((List.range n).foldl
        (fun (v : PointView) idx => { v with points := v.points.modify f idx }) view).productsValid
      = view.productsValid ∧
    ∀ j : Nat,
      ((List.range n).foldl
        (fun (v : PointView) idx => { v with points := v.points.modify f idx }) view).points[j]?
        = if j < n then (view.points[j]?).map f else view.points[j]? := by
  induction n with
  | zero => simp
  | succ n ih =>
    obtain ⟨h1, h2, h3⟩ := ih
    rw [List.range_succ, List.foldl_append]
    simp only [List.foldl_cons, List.foldl_nil]
    refine ⟨h1, h2, ?_⟩
    intro j
    rw [List.getElem?_modify, h3 j]
    by_cases hjn : n = j
    · subst hjn
      simp
    · by_cases hlt : j < n
      · have : j < n + 1 := by omega
        simp [hjn, hlt, this]
      · have : ¬ (j < n + 1) := by omega
        simp [hjn, hlt, this]

theorem filter_map (self : TransformationFilter) (view : PointView) :
    (self.filter view).2.points = view.points.map self.processOne := by
  apply List.ext_getElem?
  intro j
  simp only [TransformationFilter.filter, PointView.invalidateProducts, PointView.size]
  rw [(filterLoop_points _ view view.points.length).2.2 j]
  by_cases hj : j < view.points.length
  · rw [if_pos hj, List.getElem?_map]
    congr 1
    split_ifs <;> rfl
  · rw [if_neg hj, List.getElem?_map]
    have : view.points[j]? = none := List.getElem?_eq_none (by omega)
    simp [this]

theorem filter_matrix (self : TransformationFilter) (view : PointView) :
    (self.filter view).1.m_matrix = self.m_matrix := by
  simp only [TransformationFilter.filter]
  split_ifs <;> rfl

theorem processOne_congr (a b : TransformationFilter) (h : a.m_matrix = b.m_matrix) :
    a.processOne = b.processOne := by
  funext point
  simp only [TransformationFilter.processOne, h]

theorem initialise_ok (self : TransformationFilter) :
    ∃ s : TransformationFilter, self.initialise = Except.ok s ∧
      s.m_matrix = (if self.m_invert then TransformationFilter.invert self.m_matrix
        else self.m_matrix) ∧
      s.m_invert = self.m_invert ∧ s.m_overrideSrs = self.m_overrideSrs ∧
      s.m_log = self.m_log := by
  by_cases hsrs : self.m_overrideSrs.isEmpty = true <;> by_cases hinv : self.m_invert = true
  · exact ⟨{ self with m_matrix := TransformationFilter.invert self.m_matrix },
      by simp [TransformationFilter.initialise, hsrs, hinv],
      by simp [hinv], rfl, rfl, rfl⟩
  · exact ⟨self, by simp [TransformationFilter.initialise, hsrs, hinv],
      by simp [hinv], rfl, rfl, rfl⟩
  · exact ⟨{ self.setSpatialReference self.m_overrideSrs with
        m_matrix := TransformationFilter.invert self.m_matrix },
      by simp [TransformationFilter.initialise, hsrs, hinv,
        TransformationFilter.setSpatialReference],
      by simp [hinv], rfl, rfl, rfl⟩
  · exact ⟨self.setSpatialReference self.m_overrideSrs,
      by simp [TransformationFilter.initialise, hsrs, hinv,
        TransformationFilter.setSpatialReference],
      by simp [hinv, TransformationFilter.setSpatialReference], rfl, rfl, rfl⟩

/-! ### The byte swap -/

/-- The loop of the byte swap mirrors the bytes between `first` and `last` and
leaves the others. -/
theorem swapLoop_spec (d : Nat) :
    ∀ (mem : drivers.qfit.Memory) (first last : Int), (last - first).toNat ≤ d → ∀ a : Int,
      drivers.qfit.swapLoop mem first last a
        = if first ≤ a ∧ a ≤ last then mem (first + last - a) else mem a := by
  induction d with
  | zero =>
    intro mem first last h a
    have hlt : ¬ first < last := by omega
    rw [drivers.qfit.swapLoop, if_neg hlt]
    split_ifs with h2
    · have : first + last - a = a := by omega
      rw [this]
    · rfl
  | succ d ih =>
    intro mem first last h a
    by_cases hlt : first < last
    · rw [drivers.qfit.swapLoop, if_pos hlt]
      rw [ih _ (first + 1) (last - 1) (by omega) a]
      simp only [drivers.qfit.Memory.write]
      split_ifs <;> first | rfl | (exfalso; omega) | (congr 1; omega)
    · rw [drivers.qfit.swapLoop, if_neg hlt]
      split_ifs with h2
      · have : first + last - a = a := by omega
        rw [this]
      · rfl

theorem swap_spec (mem : drivers.qfit.Memory) (addr : Int) (n : Nat) (a : Int) :
    drivers.qfit.QFIT_SWAP_BE_TO_LE_N mem addr n a
      = if addr ≤ a ∧ a < addr + n then mem (addr + (addr + n - 1) - a) else mem a := by
  simp only [drivers.qfit.QFIT_SWAP_BE_TO_LE_N]
  rw [swapLoop_spec _ mem addr (addr + n - 1) (le_refl _) a]
  by_cases h : addr ≤ a ∧ a < addr + n
  · have h2 : addr ≤ a ∧ a ≤ addr + n - 1 := by omega
    rw [if_pos h, if_pos h2]
  · have h2 : ¬ (addr ≤ a ∧ a ≤ addr + n - 1) := by omega
    rw [if_neg h, if_neg h2]

/-! ### Products of matrices -/

theorem matMul_entries (A B : Transform) :
    matMul A B 0 = A 0 * B 0 + A 1 * B 4 + A 2 * B 8 + A 3 * B 12 ∧
    matMul A B 1 = A 0 * B 1 + A 1 * B 5 + A 2 * B 9 + A 3 * B 13 ∧
    matMul A B 2 = A 0 * B 2 + A 1 * B 6 + A 2 * B 10 + A 3 * B 14 ∧
    matMul A B 3 = A 0 * B 3 + A 1 * B 7 + A 2 * B 11 + A 3 * B 15 ∧
    matMul A B 4 = A 4 * B 0 + A 5 * B 4 + A 6 * B 8 + A 7 * B 12 ∧
    matMul A B 5 = A 4 * B 1 + A 5 * B 5 + A 6 * B 9 + A 7 * B 13 ∧
    matMul A B 6 = A 4 * B 2 + A 5 * B 6 + A 6 * B 10 + A 7 * B 14 ∧
    matMul A B 7 = A 4 * B 3 + A 5 * B 7 + A 6 * B 11 + A 7 * B 15 ∧
    matMul A B 8 = A 8 * B 0 + A 9 * B 4 + A 10 * B 8 + A 11 * B 12 ∧
    matMul A B 9 = A 8 * B 1 + A 9 * B 5 + A 10 * B 9 + A 11 * B 13 ∧
    matMul A B 10 = A 8 * B 2 + A 9 * B 6 + A 10 * B 10 + A 11 * B 14 ∧
    matMul A B 11 = A 8 * B 3 + A 9 * B 7 + A 10 * B 11 + A 11 * B 15 ∧
    matMul A B 12 = A 12 * B 0 + A 13 * B 4 + A 14 * B 8 + A 15 * B 12 ∧
    matMul A B 13 = A 12 * B 1 + A 13 * B 5 + A 14 * B 9 + A 15 * B 13 ∧
    matMul A B 14 = A 12 * B 2 + A 13 * B 6 + A 14 * B 10 + A 15 * B 14 ∧
    matMul A B 15 = A 12 * B 3 + A 13 * B 7 + A 14 * B 11 + A 15 * B 15 :=
  ⟨rfl, rfl, rfl, rfl, rfl, rfl, rfl, rfl, rfl, rfl, rfl, rfl, rfl, rfl, rfl, rfl⟩

theorem matMul_perspective (j k : ℚ) :
    matMul (perspectiveMatrix j) (perspectiveMatrix k) = perspectiveMatrix (j * k) := by
  funext i
  fin_cases i <;>
    simp [matMul, Transform.get, perspectiveMatrix, Transform.ofList]

theorem perspective_one : perspectiveMatrix 1 = Transform.identity := rfl

theorem invert_perspective (k : ℚ) :
    TransformationFilter.invert (perspectiveMatrix k) = perspectiveMatrix k := by
  obtain ⟨e0, e1, e2, e3, e4, e5, e6, e7, e8, e9, e10, e11, e12, e13, e14, e15⟩ :=
    invert_formula (perspectiveMatrix k) _ rfl
  rw [det3_linear] at e0 e1 e2 e3 e4 e5 e6 e7 e8 e9 e10 e11
  funext i
  fin_cases i
  · exact e0.trans (by simp [perspectiveMatrix, Transform.ofList, Fin.coe_ofNat_eq_mod])
  · exact e1.trans (by simp [perspectiveMatrix, Transform.ofList, Fin.coe_ofNat_eq_mod])
  · exact e2.trans (by simp [perspectiveMatrix, Transform.ofList, Fin.coe_ofNat_eq_mod])
  · exact e3.trans (by simp [perspectiveMatrix, Transform.ofList, Fin.coe_ofNat_eq_mod])
  · exact e4.trans (by simp [perspectiveMatrix, Transform.ofList, Fin.coe_ofNat_eq_mod])
  · exact e5.trans (by simp [perspectiveMatrix, Transform.ofList, Fin.coe_ofNat_eq_mod])
  · exact e6.trans (by simp [perspectiveMatrix, Transform.ofList, Fin.coe_ofNat_eq_mod])
  · exact e7.trans (by simp [perspectiveMatrix, Transform.ofList, Fin.coe_ofNat_eq_mod])
  · exact e8.trans (by simp [perspectiveMatrix, Transform.ofList, Fin.coe_ofNat_eq_mod])
  · exact e9.trans (by simp [perspectiveMatrix, Transform.ofList, Fin.coe_ofNat_eq_mod])
  · exact e10.trans (by simp [perspectiveMatrix, Transform.ofList, Fin.coe_ofNat_eq_mod])
  · exact e11.trans (by simp [perspectiveMatrix, Transform.ofList, Fin.coe_ofNat_eq_mod])
  · exact e12
  · exact e13
  · exact e14
  · exact e15

theorem invert_rows (M : Transform) :
    ∀ (r : Fin 3) (c : Fin 4),
      (TransformationFilter.invert M).get (4 * r.val + c.val)
        = Eigen.affineInverse (TransformationFilter.toMatrix4d M) r.castSucc c := by
  intro r c
  fin_cases r <;> fin_cases c <;> rfl


/-! ### The leading run of a text -/

theorem scan_length (text : List Char) :
    ∀ st : FloatScan, (FloatScan.scan st text).2.length ≤ text.length := by
  induction text with
  | nil => intro st; simp [FloatScan.scan]
  | cons c cs ih =>
    intro st
    simp only [FloatScan.scan]
    cases hstep : st.step c with
    | none => simp
    | some st1 =>
      simp only [List.length_cons]
      exact Nat.le_succ_of_le (ih st1)

theorem readDouble_length (text rest : List Char) (v : ℚ)
    (h : readDouble text = some (v, rest)) : rest.length < text.length := by
  unfold readDouble at h
  have hdrop : (text.dropWhile isSpace).length ≤ text.length :=
    (List.dropWhile_sublist isSpace).length_le
  cases hd : text.dropWhile isSpace with
  | nil => simp [hd] at h
  | cons c cs =>
    rw [hd] at h hdrop
    simp only [FloatScan.scan] at h
    cases hstep : FloatScan.start.step c with
    | none =>
      simp only [hstep] at h
      simp [FloatScan.value, FloatScan.start] at h
    | some st1 =>
      simp only [hstep] at h
      have hlen := scan_length cs st1
      cases hs : FloatScan.scan st1 cs with
      | mk st2 rest2 =>
        rw [hs] at h hlen
        cases hv : st2.value with
        | none => simp [hv] at h
        | some w =>
          simp only [hv, Option.some.injEq, Prod.mk.injEq] at h
          obtain ⟨-, hr⟩ := h
          subst hr
          simp only [List.length_cons] at hdrop
          simp only at hlen
          omega

theorem leadingRun_exists (n : Nat) :
    ∀ text : List Char, text.length ≤ n → ∃ vals, LeadingRun text vals := by
  induction n with
  | zero =>
    intro text h
    have : text = [] := List.length_eq_zero.mp (by omega)
    subst this
    exact ⟨[], LeadingRun.stop [] rfl⟩
  | succ n ih =>
    intro text h
    cases hread : readDouble text with
    | none => exact ⟨[], LeadingRun.stop text hread⟩
    | some p =>
      obtain ⟨v, rest⟩ := p
      have hlt := readDouble_length text rest v hread
      obtain ⟨vs, hvs⟩ := ih rest (by omega)
      exact ⟨v :: vs, LeadingRun.more text rest v vs hread hvs⟩

theorem scanEntries_run (text : List Char) (vals : List ℚ) (h : LeadingRun text vals) :
    ∀ (i : Nat) (xform : Transform), i ≤ 16 →
      Transform.scanEntries text i xform
        = if i + vals.length ≤ 16 then Except.ok (i + vals.length, storeFrom vals i xform)
          else Except.error Transform.tooManyEntries := by
  induction h with
  | stop text hread =>
    intro i xform hi
    rw [scanEntries_none text i xform hread]
    simp [hi, storeFrom]
  | more text rest v vs hread _ ih =>
    intro i xform hi
    by_cases h16 : i < 16
    · rw [scanEntries_store text rest v i xform hread h16, ih (i + 1) _ (by omega)]
      have e : i + 1 + vs.length = i + (v :: vs).length := by
        simp only [List.length_cons]
        omega
      simp only [e, storeFrom]
    · rw [scanEntries_many text rest v i xform hread (by omega)]
      have : ¬ (i + (v :: vs).length ≤ 16) := by
        simp only [List.length_cons]
        omega
      rw [if_neg this]

theorem parse_run (fs : FileUtils) (inp : List Char) (xform : Transform) (vals : List ℚ)
    (h : LeadingRun (Transform.matrixText fs inp) vals) :
    Transform.parse fs inp xform
      = if vals.length = 16 then Except.ok (Transform.ofList vals)
        else if vals.length < 16 then Except.error (Transform.tooFewEntries vals.length)
        else Except.error Transform.tooManyEntries := by
  unfold Transform.parse
  rw [scanEntries_run _ vals h 0 xform (by omega)]
  by_cases h1 : vals.length = 16
  · simp [h1, Transform.Size, Transform.RowSize, Transform.ColSize, storeFrom_sixteen vals xform h1]
  · by_cases h2 : vals.length < 16
    · have h3 : 0 + vals.length ≤ 16 := by omega
      have h4 : ¬ (vals.length = Transform.Size) := by
        simp only [Transform.Size, Transform.RowSize, Transform.ColSize]
        omega
      rw [if_pos h3, if_neg h1, if_pos h2]
      simp only [ne_eq, Nat.zero_add]
      rw [if_pos h4]
    · have h3 : ¬ (0 + vals.length ≤ 16) := by omega
      rw [if_neg h3, if_neg h1, if_neg h2]

theorem layout_run (tail : List Char) (htail : delimited tail = true)
    (hstop : readDouble tail = none) :
    ∀ (items : List (List Char × List Char)) (vals : List ℚ),
      (∀ it ∈ items, ∀ c ∈ it.1, isSpace c = true) →
      (∀ it ∈ items.tail, it.1 ≠ []) →
      items.map (fun it => numberOf it.2) = vals.map some →
      LeadingRun (layout items ++ tail) vals := by
  intro items
  induction items with
  | nil =>
    intro vals _ _ htok
    have hv : vals = [] := by simpa using htok.symm
    subst hv
    exact LeadingRun.stop _ (by simpa [layout] using hstop)
  | cons it more ih =>
    intro vals hsep hne htok
    obtain ⟨sep, tok⟩ := it
    cases vals with
    | nil => simp at htok
    | cons v vs =>
      simp only [List.map_cons, List.cons.injEq] at htok
      obtain ⟨hv, hvs⟩ := htok
      have hsepm : ∀ it ∈ more, ∀ c ∈ it.1, isSpace c = true :=
        fun it hit => hsep it (List.mem_cons_of_mem _ hit)
      have hnem : ∀ it ∈ more, it.1 ≠ [] := by
        intro it hit
        exact hne it (by simpa using hit)
      have hread : readDouble (layout ((sep, tok) :: more) ++ tail)
          = some (v, layout more ++ tail) := by
        have := readDouble_token sep tok (layout more ++ tail) v
          (hsep (sep, tok) (List.mem_cons_self _ _)) hv
          (layout_delimited more tail hsepm hnem htail)
        simpa [layout, List.append_assoc] using this
      exact LeadingRun.more _ _ v vs hread
        (ih vs hsepm (fun it hit => hnem it (List.mem_of_mem_tail hit)) hvs)

/-! ### Composition -/

theorem processOne_apply (self : TransformationFilter) (point : PointRef) :
    self.processOne point = fun dim =>
      match dim with
      | Dimension.Id.X => (point Dimension.Id.X * self.m_matrix 0
          + point Dimension.Id.Y * self.m_matrix 1 + point Dimension.Id.Z * self.m_matrix 2
          + self.m_matrix 3)
          / (point Dimension.Id.X * self.m_matrix 12 + point Dimension.Id.Y * self.m_matrix 13
            + point Dimension.Id.Z * self.m_matrix 14 + self.m_matrix 15)
      | Dimension.Id.Y => (point Dimension.Id.X * self.m_matrix 4
          + point Dimension.Id.Y * self.m_matrix 5 + point Dimension.Id.Z * self.m_matrix 6
          + self.m_matrix 7)
          / (point Dimension.Id.X * self.m_matrix 12 + point Dimension.Id.Y * self.m_matrix 13
            + point Dimension.Id.Z * self.m_matrix 14 + self.m_matrix 15)
      | Dimension.Id.Z => (point Dimension.Id.X * self.m_matrix 8
          + point Dimension.Id.Y * self.m_matrix 9 + point Dimension.Id.Z * self.m_matrix 10
          + self.m_matrix 11)
          / (point Dimension.Id.X * self.m_matrix 12 + point Dimension.Id.Y * self.m_matrix 13
            + point Dimension.Id.Z * self.m_matrix 14 + self.m_matrix 15)
      | Dimension.Id.other n => point (Dimension.Id.other n) := by
  funext dim
  simp only [TransformationFilter.processOne, PointRef.setField, PointRef.getFieldAs]
  cases dim <;> simp

theorem compose_row (x y z w nx ny nz a b c d b0 b1 b2 b3 b4 b5 b6 b7 b8 b9 b10 b11 b12 b13 b14 b15 : ℚ)
    (hw : w ≠ 0)
    (hx : nx = x * b0 + y * b1 + z * b2 + b3) (hy : ny = x * b4 + y * b5 + z * b6 + b7)
    (hz : nz = x * b8 + y * b9 + z * b10 + b11) (hd : w = x * b12 + y * b13 + z * b14 + b15) :
    nx / w * a + ny / w * b + nz / w * c + d
      = (x * (a * b0 + b * b4 + c * b8 + d * b12) + y * (a * b1 + b * b5 + c * b9 + d * b13)
          + z * (a * b2 + b * b6 + c * b10 + d * b14)
          + (a * b3 + b * b7 + c * b11 + d * b15)) / w := by
  rw [eq_div_iff hw]
  have e : (nx / w * a + ny / w * b + nz / w * c + d) * w = nx * a + ny * b + nz * c + d * w := by
    field_simp
  rw [e, hx, hy, hz, hd]
  ring

/-! ### The inverse in the words of the spec -/

/-- For a matrix with the last row `0 0 0 1` the inversion block stores the
inverse the spec describes, when there is one. -/
theorem invert_eq_specInvert (M N : Transform)
    (h12 : M 12 = 0) (h13 : M 13 = 0) (h14 : M 14 = 0) (h15 : M 15 = 1)
    (h : specInvert M = some N) : TransformationFilter.invert M = N := by
  unfold specInvert at h
  simp only at h
  split_ifs at h with hd
  simp only [Option.some.injEq] at h
  subst h
  obtain ⟨e0, e1, e2, e3, e4, e5, e6, e7, e8, e9, e10, e11, e12, e13, e14, e15⟩ :=
    invert_formula M
      (1 / (M 0 * (M 5 * M 10 - M 6 * M 9) - M 1 * (M 4 * M 10 - M 6 * M 8)
        + M 2 * (M 4 * M 9 - M 5 * M 8)))
      (by rw [det3_linear]; congr 1; ring)
  rw [h12] at e12
  rw [h13] at e13
  rw [h14] at e14
  rw [h15] at e15
  rw [← ofList_entries (TransformationFilter.invert M)]
  refine congrArg Transform.ofList ?_
  simp only [entries, e0, e1, e2, e3, e4, e5, e6, e7, e8, e9, e10, e11, e12, e13, e14, e15,
    List.cons.injEq, and_true]
  repeat' apply And.intro
  all_goals ring


theorem matMul_ofList (a0 a1 a2 a3 a4 a5 a6 a7 a8 a9 a10 a11 a12 a13 a14 a15
    b0 b1 b2 b3 b4 b5 b6 b7 b8 b9 b10 b11 b12 b13 b14 b15 : ℚ) :
    matMul (Transform.ofList [a0, a1, a2, a3, a4, a5, a6, a7, a8, a9, a10, a11, a12, a13, a14, a15])
        (Transform.ofList [b0, b1, b2, b3, b4, b5, b6, b7, b8, b9, b10, b11, b12, b13, b14, b15])
      = Transform.ofList
        [a0 * b0 + a1 * b4 + a2 * b8 + a3 * b12, a0 * b1 + a1 * b5 + a2 * b9 + a3 * b13,
         a0 * b2 + a1 * b6 + a2 * b10 + a3 * b14, a0 * b3 + a1 * b7 + a2 * b11 + a3 * b15,
         a4 * b0 + a5 * b4 + a6 * b8 + a7 * b12, a4 * b1 + a5 * b5 + a6 * b9 + a7 * b13,
         a4 * b2 + a5 * b6 + a6 * b10 + a7 * b14, a4 * b3 + a5 * b7 + a6 * b11 + a7 * b15,
         a8 * b0 + a9 * b4 + a10 * b8 + a11 * b12, a8 * b1 + a9 * b5 + a10 * b9 + a11 * b13,
         a8 * b2 + a9 * b6 + a10 * b10 + a11 * b14, a8 * b3 + a9 * b7 + a10 * b11 + a11 * b15,
         a12 * b0 + a13 * b4 + a14 * b8 + a15 * b12, a12 * b1 + a13 * b5 + a14 * b9 + a15 * b13,
         a12 * b2 + a13 * b6 + a14 * b10 + a15 * b14,
         a12 * b3 + a13 * b7 + a14 * b11 + a15 * b15] := by
  funext i
  fin_cases i <;> rfl

set_option maxHeartbeats 1000000 in
/-- The matrix `specInvert` returns is a left inverse of the affine matrix. -/
theorem specInvert_left (M N : Transform) (h : specInvert M = some N) :
    matMul N (affinePart M) = Transform.identity := by
  unfold specInvert at h
  simp only at h
  split_ifs at h with hd
  simp only [Option.some.injEq] at h
  subst h
  unfold affinePart
  generalize M 0 = m0 at *
  generalize M 1 = m1 at *
  generalize M 2 = m2 at *
  generalize M 3 = m3 at *
  generalize M 4 = m4 at *
  generalize M 5 = m5 at *
  generalize M 6 = m6 at *
  generalize M 7 = m7 at *
  generalize M 8 = m8 at *
  generalize M 9 = m9 at *
  generalize M 10 = m10 at *
  generalize M 11 = m11 at *
  rw [matMul_ofList]
  refine congrArg Transform.ofList ?_
  simp only [List.cons.injEq, and_true]
  repeat' apply And.intro
  all_goals first | (field_simp; ring) | field_simp

set_option maxHeartbeats 1000000 in
/-- The matrix `specInvert` returns is a right inverse of the affine matrix. -/
theorem specInvert_right (M N : Transform) (h : specInvert M = some N) :
    matMul (affinePart M) N = Transform.identity := by
  unfold specInvert at h
  simp only at h
  split_ifs at h with hd
  simp only [Option.some.injEq] at h
  subst h
  unfold affinePart
  generalize M 0 = m0 at *
  generalize M 1 = m1 at *
  generalize M 2 = m2 at *
  generalize M 3 = m3 at *
  generalize M 4 = m4 at *
  generalize M 5 = m5 at *
  generalize M 6 = m6 at *
  generalize M 7 = m7 at *
  generalize M 8 = m8 at *
  generalize M 9 = m9 at *
  generalize M 10 = m10 at *
  generalize M 11 = m11 at *
  rw [matMul_ofList]
  refine congrArg Transform.ofList ?_
  simp only [List.cons.injEq, and_true]
  repeat' apply And.intro
  all_goals first | (field_simp; ring) | field_simp

theorem specInvert_perspective : specInvert (perspectiveMatrix 2) = some Transform.identity := by
  simp [specInvert, perspectiveMatrix, Transform.ofList, Transform.identity, Fin.coe_ofNat_eq_mod]

theorem specInvert_affineMatrix : specInvert affineMatrix = some affineMatrixInverse := by
  simp [specInvert, affineMatrix, affineMatrixInverse, Transform.ofList, Fin.coe_ofNat_eq_mod]
  norm_num

/-! ### Numbers outside the range of a double -/

/-- The extraction fails at `1e400`, which is too large for a `double`. -/
theorem readDouble_overflow : readDouble " 1e400".toList = none := by
  simp [readDouble, FloatScan.scan, FloatScan.step, FloatScan.start, FloatScan.value,
    Char.isDigit, isSpace, List.dropWhile]
  norm_num [doubleLimit]

/-- The extraction fails at `1e400` whatever follows it. -/
theorem readDouble_overflow_more : readDouble " 1e400 0 x 4".toList = none := by
  simp [readDouble, FloatScan.scan, FloatScan.step, FloatScan.start, FloatScan.value,
    Char.isDigit, isSpace, List.dropWhile]
  norm_num [doubleLimit]

/-- C1: for every matrix `m` and point `(x, y, z)`, `processOne` leaves
`X = (x*m[0] + y*m[1] + z*m[2] + m[3]) / w`, `Y = (x*m[4] + y*m[5] + z*m[6] + m[7]) / w`
and `Z = (x*m[8] + y*m[9] + z*m[10] + m[11]) / w` with
`w = x*m[12] + y*m[13] + z*m[14] + m[15]`, each computed from the coordinates
the point had on entry; and the matrix `2 0 0 0 / 0 1 0 0 / 0 0 1 0 / 0 0 0 1`
sends `(5, 5, 5)` to `(10, 5, 5)`. -/
theorem processOne_formula :
    (∀ (self : TransformationFilter) (point : PointRef),
      let m := self.m_matrix
      let x := point Dimension.Id.X
      let y := point Dimension.Id.Y
      let z := point Dimension.Id.Z
      let w := x * m 12 + y * m 13 + z * m 14 + m 15
      (self.processOne point) Dimension.Id.X = (x * m 0 + y * m 1 + z * m 2 + m 3) / w ∧
      (self.processOne point) Dimension.Id.Y = (x * m 4 + y * m 5 + z * m 6 + m 7) / w ∧
      (self.processOne point) Dimension.Id.Z = (x * m 8 + y * m 9 + z * m 10 + m 11) / w) ∧
    (let out := (stageOf (Transform.ofList [2, 0, 0, 0, 0, 1, 0, 0, 0, 0, 1, 0, 0, 0, 0, 1])).processOne
        (PointRef.ofXYZ 5 5 5)
     out Dimension.Id.X = 10 ∧ out Dimension.Id.Y = 5 ∧ out Dimension.Id.Z = 5) := by
  refine ⟨?_, ?_⟩
  · intro self point
    simp [TransformationFilter.processOne, PointRef.setField, PointRef.getFieldAs]
  · simp [TransformationFilter.processOne, PointRef.setField, PointRef.getFieldAs, stageOf,
      Transform.ofList, PointRef.ofXYZ, Fin.coe_ofNat_eq_mod]
    norm_num

/-- C7: with the identity matrix `processOne` leaves every point as it was: `X`,
`Y` and `Z` (and every other field) keep their values. -/
theorem processOne_identity (self : TransformationFilter) (point : PointRef)
    (hm : self.m_matrix = Transform.identity) :
    self.processOne point = point := by
  funext d
  simp [TransformationFilter.processOne, PointRef.setField, PointRef.getFieldAs, hm,
    Transform.identity, Transform.ofList, Fin.coe_ofNat_eq_mod]
  split_ifs with h1 h2 h3 <;> simp_all

/-- C7 at the point `(3, -7, 1/2)`. -/
theorem processOne_identity_witness :
    (stageOf Transform.identity).processOne (PointRef.ofXYZ 3 (-7) (1 / 2))
      = PointRef.ofXYZ 3 (-7) (1 / 2) :=
  processOne_identity (stageOf Transform.identity) (PointRef.ofXYZ 3 (-7) (1 / 2)) rfl

/-- C2: a text of exactly sixteen numeric values (texts the extraction reads as
a `double`, which a number too large for a `double` is not), separated by
non-empty white space of any kind (there may be white space before the first
and after the last), parses to the matrix whose entry `i` is the `i`-th value.  The result is
determined by the values alone, so it is the same wherever the line breaks
fall.  The text is the one that is scanned: the argument, or the contents of
the file it names. -/
theorem parse_sixteen (fs : FileUtils) (inp : List Char) (xform : Transform)
    (items : List (List Char × List Char)) (trail : List Char) (vals : List ℚ)
    (htext : Transform.matrixText fs inp = layout items ++ trail)
    (hlen : items.length = 16)
    (hsep : ∀ it ∈ items, ∀ c ∈ it.1, isSpace c = true)
    (hne : ∀ it ∈ items.tail, it.1 ≠ [])
    (htrail : ∀ c ∈ trail, isSpace c = true)
    (htok : items.map (fun it => numberOf it.2) = vals.map some) :
    ∃ m : Transform, Transform.parse fs inp xform = Except.ok m ∧
      ∀ i : Fin 16, vals.get? i.val = some (m i) := by
  have hv : vals.length = 16 := by rw [values_length items vals htok, hlen]
  refine ⟨Transform.ofList vals,
    parse_layout fs inp xform items trail vals htext hlen hsep hne htrail htok, ?_⟩
  intro i
  have hi : i.val < vals.length := by
    have := i.isLt
    omega
  simp [Transform.ofList, List.getD, List.get?_eq_get, hi]

/-- C2 at the text `2 0 0 0 / 0 1.5 0 0 / 0 0 -1e1 0 / 0 0 0 1`, with a tab, a
carriage return and a final line feed. -/
theorem parse_sixteen_witness :
    ∃ m : Transform,
      Transform.parse noFiles "2 0 0 0\n0 1.5 0 0\n\t0 0  -1e1 0\r\n0 0 0 1\n".toList
          Transform.identity = Except.ok m ∧
      ∀ i : Fin 16, sampleVals.get? i.val = some (m i) :=
  parse_sixteen noFiles _ Transform.identity sampleItems ['\n'] sampleVals
    (by rfl) (by rfl) (by decide) (by decide) (by decide) sampleItems_values

/-- C3: a text with more than sixteen numeric values makes `parse` throw "Too
many entries in transformation matrix, should be 16" and return no matrix.
The exception does not depend on `tail`, the text after the values named: it
is thrown when the seventeenth value is read. -/
theorem parse_too_many (fs : FileUtils) (inp : List Char) (xform : Transform)
    (items : List (List Char × List Char)) (tail : List Char) (vals : List ℚ)
    (htext : Transform.matrixText fs inp = layout items ++ tail)
    (hlen : 16 < items.length)
    (hsep : ∀ it ∈ items, ∀ c ∈ it.1, isSpace c = true)
    (hne : ∀ it ∈ items.tail, it.1 ≠ [])
    (htail : delimited tail = true)
    (htok : items.map (fun it => numberOf it.2) = vals.map some) :
    Transform.parse fs inp xform
      = Except.error
          "filters.transformation: Too many entries in transformation matrix, should be 16" := by
  unfold Transform.parse
  rw [htext, scanEntries_layout tail htail items vals 0 xform (by omega) hsep hne htok]
  have : ¬ (0 + items.length ≤ 16) := by omega
  rw [if_neg this]
  rfl

/-- C3 at the sample text followed by a seventeenth value and by text that is
not numeric. -/
theorem parse_too_many_witness :
    Transform.parse noFiles
        "2 0 0 0\n0 1.5 0 0\n\t0 0  -1e1 0\r\n0 0 0 1 7 and more".toList Transform.identity
      = Except.error
          "filters.transformation: Too many entries in transformation matrix, should be 16" :=
  parse_too_many noFiles _ Transform.identity (sampleItems ++ [([' '], ['7'])])
    " and more".toList (sampleVals ++ [7])
    (by rfl) (by decide) (by decide) (by decide) (by rfl)
    (by
      rw [List.map_append, List.map_append, sampleItems_values]
      simp [numberOf, FloatScan.scan, FloatScan.step, FloatScan.start, FloatScan.value,
        Char.isDigit]
      norm_num [doubleLimit])

/-- C4: a text with exactly `K` numeric values, `K < 16`, makes `parse` throw
"Too few entries in transformation matrix: K (should be 16)", `K` being the
number of values in the text; no matrix is returned. -/
theorem parse_too_few (fs : FileUtils) (inp : List Char) (xform : Transform)
    (items : List (List Char × List Char)) (trail : List Char) (vals : List ℚ)
    (htext : Transform.matrixText fs inp = layout items ++ trail)
    (hlen : items.length < 16)
    (hsep : ∀ it ∈ items, ∀ c ∈ it.1, isSpace c = true)
    (hne : ∀ it ∈ items.tail, it.1 ≠ [])
    (htrail : ∀ c ∈ trail, isSpace c = true)
    (htok : items.map (fun it => numberOf it.2) = vals.map some) :
    Transform.parse fs inp xform
      = Except.error
          ("filters.transformation: " ++
            ("Too few entries in transformation matrix: " ++ toString items.length ++
              " (should be " ++ "16" ++ ")")) := by
  unfold Transform.parse
  rw [htext, scanEntries_text items trail vals xform (by omega) hsep hne htrail htok]
  have : items.length ≠ Transform.Size := by
    simp only [Transform.Size, Transform.RowSize, Transform.ColSize]
    omega
  simp only [this, ne_eq, not_false_eq_true, if_true]
  rfl

/-- C4 at the first six values of the sample text: the message names 6. -/
theorem parse_too_few_witness :
    Transform.parse noFiles "2 0 0 0\n0 1.5 ".toList Transform.identity
      = Except.error
          "filters.transformation: Too few entries in transformation matrix: 6 (should be 16)" :=
  parse_too_few noFiles _ Transform.identity (sampleItems.take 6) [' '] (sampleVals.take 6)
    (by rfl) (by decide) (by decide) (by decide) (by decide)
    (by
      rw [List.map_take, List.map_take, sampleItems_values])

/-- C5: `format` writes four rows; row `r` is the printed forms of `m[4r]`,
`m[4r+1]`, `m[4r+2]`, `m[4r+3]` in this order with two spaces between
neighbours, nothing before the first or after the last, and a single line feed
ends every row, the last included. -/
theorem format_rows (printDouble : ℚ → List Char) (m : Transform) (out : List Char) :
    Transform.format printDouble m out = out ++
      (printDouble (m 0) ++ [' ', ' '] ++ printDouble (m 1) ++ [' ', ' '] ++
        printDouble (m 2) ++ [' ', ' '] ++ printDouble (m 3) ++ ['\n']) ++
      (printDouble (m 4) ++ [' ', ' '] ++ printDouble (m 5) ++ [' ', ' '] ++
        printDouble (m 6) ++ [' ', ' '] ++ printDouble (m 7) ++ ['\n']) ++
      (printDouble (m 8) ++ [' ', ' '] ++ printDouble (m 9) ++ [' ', ' '] ++
        printDouble (m 10) ++ [' ', ' '] ++ printDouble (m 11) ++ ['\n']) ++
      (printDouble (m 12) ++ [' ', ' '] ++ printDouble (m 13) ++ [' ', ' '] ++
        printDouble (m 14) ++ [' ', ' '] ++ printDouble (m 15) ++ ['\n']) := by
  simp [Transform.format, Transform.RowSize, Transform.ColSize, List.range_succ, Transform.get]

/-- C6: when the printed form of every entry of `m` is a numeric text, entry `i`
reading back as `w i`, the output of `format` parses, and to the matrix `w`:
it is read as exactly sixteen values, neither fewer nor more, in the order
`m[0]`, ..., `m[15]`.  Where the printed forms are exact (`w = m`) the matrix
parsed is `m` itself.  The output of `format` is the text that is scanned. -/
theorem parse_format (fs : FileUtils) (printDouble : ℚ → List Char) (inp : List Char)
    (m w xform : Transform)
    (htext : Transform.matrixText fs inp = Transform.format printDouble m [])
    (hprint : ∀ i : Fin 16, numberOf (printDouble (m i)) = some (w i)) :
    Transform.parse fs inp xform = Except.ok w := by
  have h := parse_layout fs inp xform (formatItems printDouble m) ['\n'] (entries w)
    (by rw [htext, format_as_layout])
    (by rfl) (by simp [formatItems, isSpace]) (by simp [formatItems])
    (by simp [isSpace]) (by simp [formatItems, entries, hprint])
  rw [h, ofList_entries]

/-- C6 at the sample matrix, whose entries the sample printer prints exactly:
formatting and parsing gives the matrix back. -/
theorem parse_format_witness :
    Transform.parse noFiles (Transform.format samplePrint sampleMatrix []) Transform.identity
      = Except.ok sampleMatrix :=
  parse_format noFiles samplePrint _ sampleMatrix sampleMatrix Transform.identity (by rfl)
    (by
      intro i
      fin_cases i <;>
        simp [sampleMatrix, samplePrint, Transform.ofList, numberOf, FloatScan.scan,
          FloatScan.step, FloatScan.start, FloatScan.value, Char.isDigit, Nat.digitChar]
      all_goals norm_num [doubleLimit])

/-- C8: for an affine matrix `M` (last row `0 0 0 1`) whose upper-left 3x3 block
is invertible, `initialize` with the invert option stores `invert(M)`, and for
every point `apply(M, apply(invert(M), p)) = p` and
`apply(invert(M), apply(M, p)) = p`, in exact arithmetic. -/
theorem invert_roundtrip (self : TransformationFilter) (point : PointRef)
    (hinv : self.m_invert = true)
    (h12 : self.m_matrix 12 = 0) (h13 : self.m_matrix 13 = 0) (h14 : self.m_matrix 14 = 0)
    (h15 : self.m_matrix 15 = 1)
    (hdet : Eigen.det3 (Eigen.linear (TransformationFilter.toMatrix4d self.m_matrix)) ≠ 0) :
    ∃ inv : TransformationFilter, self.initialise = Except.ok inv ∧
      inv.m_matrix = TransformationFilter.invert self.m_matrix ∧
      self.processOne (inv.processOne point) = point ∧
      inv.processOne (self.processOne point) = point := by
  have key : ∀ inv : TransformationFilter,
      inv.m_matrix = TransformationFilter.invert self.m_matrix →
      self.processOne (inv.processOne point) = point ∧
        inv.processOne (self.processOne point) = point :=
    fun inv hm => processOne_invert self.m_matrix self inv point rfl hm h12 h13 h14 h15 hdet
  by_cases hsrs : self.m_overrideSrs.isEmpty = true
  · refine ⟨{ self with m_matrix := TransformationFilter.invert self.m_matrix }, ?_, rfl,
      key _ rfl⟩
    simp [TransformationFilter.initialise, hsrs, hinv]
  · refine ⟨{ self.setSpatialReference self.m_overrideSrs with
        m_matrix := TransformationFilter.invert self.m_matrix }, ?_, rfl, key _ rfl⟩
    simp [TransformationFilter.initialise, hsrs, hinv, TransformationFilter.setSpatialReference]

/-- C8 at the matrix `2 0 0 1 / 0 1 0 2 / 0 1 1 3 / 0 0 0 1` and the point
`(1, 2, 3)`. -/
theorem invert_roundtrip_witness :
    ∃ inv : TransformationFilter,
      TransformationFilter.initialise { stageOf affineMatrix with m_invert := true }
        = Except.ok inv ∧
      inv.m_matrix = TransformationFilter.invert affineMatrix ∧
      TransformationFilter.processOne { stageOf affineMatrix with m_invert := true }
        (inv.processOne (PointRef.ofXYZ 1 2 3)) = PointRef.ofXYZ 1 2 3 ∧
      inv.processOne
        (TransformationFilter.processOne { stageOf affineMatrix with m_invert := true }
          (PointRef.ofXYZ 1 2 3)) = PointRef.ofXYZ 1 2 3 :=
  invert_roundtrip { stageOf affineMatrix with m_invert := true } (PointRef.ofXYZ 1 2 3)
    rfl rfl rfl rfl rfl
    (by
      rw [det3_linear]
      simp [stageOf, affineMatrix, Transform.ofList, Fin.coe_ofNat_eq_mod])

/-- C9, as the code has it: `initialize` with the invert option set does not
fail on a singular matrix.  It raises no error and returns, the matrix stored
being the output of the inversion block (whose factor `1 / det` is then a
quotient by zero). -/
theorem initialise_singular (self : TransformationFilter)
    (hinv : self.m_invert = true)
    (hdet : Eigen.det3 (Eigen.linear (TransformationFilter.toMatrix4d self.m_matrix)) = 0) :
    ∃ s : TransformationFilter, self.initialise = Except.ok s ∧
      s.m_matrix = TransformationFilter.invert self.m_matrix := by
  have _ := hdet
  by_cases hsrs : self.m_overrideSrs.isEmpty = true
  · exact ⟨{ self with m_matrix := TransformationFilter.invert self.m_matrix },
      by simp [TransformationFilter.initialise, hsrs, hinv], rfl⟩
  · exact ⟨{ self.setSpatialReference self.m_overrideSrs with
        m_matrix := TransformationFilter.invert self.m_matrix },
      by simp [TransformationFilter.initialise, hsrs, hinv,
        TransformationFilter.setSpatialReference], rfl⟩

/-- C9 as the code has it, at the matrix of zeros. -/
theorem initialise_singular_witness :
    ∃ s : TransformationFilter,
      TransformationFilter.initialise { stageOf (Transform.ofList []) with m_invert := true }
        = Except.ok s ∧
      s.m_matrix = TransformationFilter.invert (Transform.ofList []) :=
  initialise_singular { stageOf (Transform.ofList []) with m_invert := true } rfl
    (by
      rw [det3_linear]
      simp [stageOf, Transform.ofList])

/-- C9 as stated fails: the matrix `1 2 3 0 / 2 4 6 0 / 0 0 1 0 / 0 0 0 1`, whose
second row is twice the first, is singular, and `initialize` with the invert
option set returns a stage for it; it raises no error. -/
theorem initialise_singular_counterexample :
    Eigen.det3 (Eigen.linear (TransformationFilter.toMatrix4d singularMatrix)) = 0 ∧
    (∃ s : TransformationFilter,
      TransformationFilter.initialise { stageOf singularMatrix with m_invert := true }
        = Except.ok s) ∧
    ¬ ∃ msg : String,
      TransformationFilter.initialise { stageOf singularMatrix with m_invert := true }
        = Except.error msg := by
  refine ⟨?_, ?_, ?_⟩
  · rw [det3_linear]
    simp [singularMatrix, Transform.ofList, Fin.coe_ofNat_eq_mod]
    norm_num
  · exact ⟨_, rfl⟩
  · rintro ⟨msg, h⟩
    simp [TransformationFilter.initialise, stageOf] at h

/-- C10: `filter` leaves a view of the same `N` points in the same order, point
`i` being `processOne` of the point that was at `i` (so its `X`, `Y`, `Z` are
`apply(M, ·)` of the original coordinates, by C1); no point is added, removed,
skipped or moved; every field other than `X`, `Y`, `Z` keeps its value; the
matrix of the stage is the same before and after, and the same for all points. -/
theorem filter_points (self : TransformationFilter) (view : PointView) :
    (self.filter view).2.size = view.size ∧
    (self.filter view).2.points = view.points.map self.processOne ∧
    (∀ (i : Nat) (h : i < view.points.length),
      ((self.filter view).2.points[i]?).map (fun p => (p Dimension.Id.X, p Dimension.Id.Y, p Dimension.Id.Z))
        = some (
          (view.points[i] Dimension.Id.X * self.m_matrix 0 + view.points[i] Dimension.Id.Y * self.m_matrix 1
            + view.points[i] Dimension.Id.Z * self.m_matrix 2 + self.m_matrix 3)
            / (view.points[i] Dimension.Id.X * self.m_matrix 12 + view.points[i] Dimension.Id.Y * self.m_matrix 13
              + view.points[i] Dimension.Id.Z * self.m_matrix 14 + self.m_matrix 15),
          (view.points[i] Dimension.Id.X * self.m_matrix 4 + view.points[i] Dimension.Id.Y * self.m_matrix 5
            + view.points[i] Dimension.Id.Z * self.m_matrix 6 + self.m_matrix 7)
            / (view.points[i] Dimension.Id.X * self.m_matrix 12 + view.points[i] Dimension.Id.Y * self.m_matrix 13
              + view.points[i] Dimension.Id.Z * self.m_matrix 14 + self.m_matrix 15),
          (view.points[i] Dimension.Id.X * self.m_matrix 8 + view.points[i] Dimension.Id.Y * self.m_matrix 9
            + view.points[i] Dimension.Id.Z * self.m_matrix 10 + self.m_matrix 11)
            / (view.points[i] Dimension.Id.X * self.m_matrix 12 + view.points[i] Dimension.Id.Y * self.m_matrix 13
              + view.points[i] Dimension.Id.Z * self.m_matrix 14 + self.m_matrix 15))) ∧
    (∀ (i : Nat) (dim : Dimension.Id),
      dim ≠ Dimension.Id.X → dim ≠ Dimension.Id.Y → dim ≠ Dimension.Id.Z →
      ((self.filter view).2.points[i]?).map (fun p => p dim)
        = (view.points[i]?).map (fun p => p dim)) ∧
    (self.filter view).1.m_matrix = self.m_matrix := by
  have hmap := filter_map self view
  refine ⟨?_, hmap, ?_, ?_, ?_⟩
  · simp [PointView.size, hmap]
  · intro i h
    rw [hmap, List.getElem?_map, List.getElem?_eq_getElem h]
    simp [TransformationFilter.processOne, PointRef.setField, PointRef.getFieldAs]
  · intro i dim hx hy hz
    rw [hmap, List.getElem?_map]
    cases view.points[i]? with
    | none => rfl
    | some p => simp [processOne_other self p dim hx hy hz]
  · simp only [TransformationFilter.filter]
    split_ifs <;> rfl

/-- C11, as the code has it: `doFilter(view, matrix)` assigns the supplied matrix
to the stored one and leaves it there.  After the call the stored matrix is the
supplied matrix, whatever it was before, and the points have been transformed
with the supplied matrix. -/
theorem doFilter_stores (self : TransformationFilter) (view : PointView) (matrix : Transform) :
    (self.doFilter view matrix).1.m_matrix = matrix ∧
    (self.doFilter view matrix).2.points
      = view.points.map (TransformationFilter.processOne { self with m_matrix := matrix }) := by
  refine ⟨?_, ?_⟩
  · simp only [TransformationFilter.doFilter]
    rw [filter_matrix]
  · simp only [TransformationFilter.doFilter]
    rw [filter_map]

/-- C11 as stated fails: a stage that holds the identity matrix and is called
with the matrix `1 0 0 0 / 0 1 0 0 / 0 0 1 0 / 0 0 0 2` holds that matrix after
the call, not the identity. -/
theorem doFilter_restores_counterexample :
    ((stageOf Transform.identity).doFilter
        { points := [PointRef.ofXYZ 4 4 4], m_spatialReference := [], productsValid := true }
        (perspectiveMatrix 2)).1.m_matrix = perspectiveMatrix 2 ∧
    ((stageOf Transform.identity).doFilter
        { points := [PointRef.ofXYZ 4 4 4], m_spatialReference := [], productsValid := true }
        (perspectiveMatrix 2)).1.m_matrix ≠ (stageOf Transform.identity).m_matrix := by
  have h1 : ((stageOf Transform.identity).doFilter
        { points := [PointRef.ofXYZ 4 4 4], m_spatialReference := [], productsValid := true }
        (perspectiveMatrix 2)).1.m_matrix = perspectiveMatrix 2 := by
    simp only [TransformationFilter.doFilter]
    rw [filter_matrix]
  refine ⟨h1, ?_⟩
  rw [h1]
  intro h
  have h15 := congrFun h 15
  simp [perspectiveMatrix, stageOf, Transform.identity, Transform.ofList,
    Fin.coe_ofNat_eq_mod] at h15

/-- C12, as the code has it: for a matrix `M` whose last row is `0 0 0 1` and
which has an inverse `invert(M)` in the sense of the spec (the standard inverse
of the affine matrix, `specInvert`), a stage with the invert option set and the
matrix `M`, after `initialize`, leaves the same points as a stage without the
option and with the matrix `invert(M)`.  The inversion happens once, in
`initialize`: the matrix held after it is `invert(M)`, and `filter` applies
that one matrix to every point and leaves it as it is. -/
theorem invert_option (M N : Transform) (overrideSrs srs : List Char) (log : List String)
    (view : PointView)
    (h12 : M 12 = 0) (h13 : M 13 = 0) (h14 : M 14 = 0) (h15 : M 15 = 1)
    (hN : specInvert M = some N) :
    ∃ a b : TransformationFilter,
      TransformationFilter.initialise
          { m_matrix := M, m_invert := true, m_overrideSrs := overrideSrs, m_srs := srs,
            m_log := log } = Except.ok a ∧
      TransformationFilter.initialise
          { m_matrix := N, m_invert := false, m_overrideSrs := overrideSrs, m_srs := srs,
            m_log := log } = Except.ok b ∧
      (a.filter view).2.points = (b.filter view).2.points ∧
      a.m_matrix = N ∧
      (a.filter view).1.m_matrix = N ∧
      (a.filter view).2.points = view.points.map (stageOf N).processOne := by
  obtain ⟨a, ha, hma, -, -, -⟩ := initialise_ok
    { m_matrix := M, m_invert := true, m_overrideSrs := overrideSrs, m_srs := srs, m_log := log }
  obtain ⟨b, hb, hmb, -, -, -⟩ := initialise_ok
    { m_matrix := N, m_invert := false, m_overrideSrs := overrideSrs, m_srs := srs, m_log := log }
  simp only [if_true] at hma
  simp only [Bool.false_eq_true, if_false] at hmb
  rw [invert_eq_specInvert M N h12 h13 h14 h15 hN] at hma
  refine ⟨a, b, ha, hb, ?_, hma, ?_, ?_⟩
  · rw [filter_map, filter_map, processOne_congr a b (by rw [hma, hmb])]
  · rw [filter_matrix, hma]
  · rw [filter_map, processOne_congr a (stageOf N) (by rw [hma]; rfl)]

/-- C12 as the code has it, at the matrix `2 0 0 1 / 0 1 0 2 / 0 1 1 3 / 0 0 0 1`,
whose inverse is `1/2 0 0 -1/2 / 0 1 0 -2 / 0 -1 1 -1 / 0 0 0 1`, and a view
of two points. -/
theorem invert_option_witness :
    ∃ a b : TransformationFilter,
      TransformationFilter.initialise
          { m_matrix := affineMatrix, m_invert := true, m_overrideSrs := [], m_srs := [],
            m_log := [] } = Except.ok a ∧
      TransformationFilter.initialise
          { m_matrix := affineMatrixInverse, m_invert := false, m_overrideSrs := [],
            m_srs := [], m_log := [] } = Except.ok b ∧
      (a.filter samplePoints).2.points = (b.filter samplePoints).2.points ∧
      a.m_matrix = affineMatrixInverse ∧
      (a.filter samplePoints).1.m_matrix = affineMatrixInverse ∧
      (a.filter samplePoints).2.points
        = samplePoints.points.map (stageOf affineMatrixInverse).processOne :=
  invert_option affineMatrix affineMatrixInverse [] [] [] samplePoints rfl rfl rfl rfl
    specInvert_affineMatrix

/-- C12 as stated fails: the matrix `1 0 0 0 / 0 1 0 0 / 0 0 1 0 / 0 0 0 2`,
treated as affine, has the identity as its inverse.  A stage with the invert
option and this matrix sends `(4, 4, 4)` to `(2, 2, 2)`, the last row being
kept by `initialize`; a stage without the option and with the identity leaves
`(4, 4, 4)`. -/
theorem invert_option_counterexample :
    specInvert (perspectiveMatrix 2) = some Transform.identity ∧
    ∃ a b : TransformationFilter,
      TransformationFilter.initialise
          { m_matrix := perspectiveMatrix 2, m_invert := true, m_overrideSrs := [], m_srs := [],
            m_log := [] } = Except.ok a ∧
      TransformationFilter.initialise
          { m_matrix := Transform.identity, m_invert := false, m_overrideSrs := [], m_srs := [],
            m_log := [] } = Except.ok b ∧
      (a.filter onePoint).2.points
        ≠ (b.filter onePoint).2.points ∧
      ((a.filter onePoint).2.points.map (fun p => p Dimension.Id.X)) = [2] ∧
      ((b.filter onePoint).2.points.map (fun p => p Dimension.Id.X)) = [4] := by
  refine ⟨specInvert_perspective, ?_⟩
  obtain ⟨a, ha, hma, -, -, -⟩ := initialise_ok
    { m_matrix := perspectiveMatrix 2, m_invert := true, m_overrideSrs := [], m_srs := [],
      m_log := [] }
  obtain ⟨b, hb, hmb, -, -, -⟩ := initialise_ok
    { m_matrix := Transform.identity, m_invert := false, m_overrideSrs := [], m_srs := [],
      m_log := [] }
  simp only [if_true] at hma
  simp only [Bool.false_eq_true, if_false] at hmb
  rw [invert_perspective] at hma
  have hax : (a.filter onePoint).2.points.map (fun p => p Dimension.Id.X) = [2] := by
    rw [filter_map]
    simp [onePoint, TransformationFilter.processOne, PointRef.setField, PointRef.getFieldAs,
      hma, perspectiveMatrix, Transform.ofList, PointRef.ofXYZ, Fin.coe_ofNat_eq_mod]
    norm_num
  have hbx : (b.filter onePoint).2.points.map (fun p => p Dimension.Id.X) = [4] := by
    rw [filter_map]
    simp [onePoint, TransformationFilter.processOne, PointRef.setField, PointRef.getFieldAs,
      hmb, Transform.identity, Transform.ofList, PointRef.ofXYZ, Fin.coe_ofNat_eq_mod]
  refine ⟨a, b, ha, hb, ?_, hax, hbx⟩
  intro heq
  rw [heq, hbx] at hax
  norm_num at hax

/-- C13: the matrix `1 0 0 0 / 0 1 0 0 / 0 0 1 0 / 0 0 0 k`, `k` not zero, sends
`(x, y, z)` to `(x / k, y / k, z / k)`. -/
theorem perspective_divide (self : TransformationFilter) (point : PointRef) (k : ℚ)
    (hk : k ≠ 0) (hm : self.m_matrix = perspectiveMatrix k) :
    self.processOne point Dimension.Id.X = point Dimension.Id.X / k ∧
    self.processOne point Dimension.Id.Y = point Dimension.Id.Y / k ∧
    self.processOne point Dimension.Id.Z = point Dimension.Id.Z / k := by
  have _ := hk
  simp [TransformationFilter.processOne, PointRef.setField, PointRef.getFieldAs, hm,
    perspectiveMatrix, Transform.ofList, Fin.coe_ofNat_eq_mod]

/-- C13 at `k = 2` and the point `(4, 4, 4)`: the result is `(2, 2, 2)`. -/
theorem perspective_divide_witness :
    (stageOf (perspectiveMatrix 2)).processOne (PointRef.ofXYZ 4 4 4) Dimension.Id.X = 2 ∧
    (stageOf (perspectiveMatrix 2)).processOne (PointRef.ofXYZ 4 4 4) Dimension.Id.Y = 2 ∧
    (stageOf (perspectiveMatrix 2)).processOne (PointRef.ofXYZ 4 4 4) Dimension.Id.Z = 2 := by
  have h := perspective_divide (stageOf (perspectiveMatrix 2)) (PointRef.ofXYZ 4 4 4) 2
    (by norm_num) rfl
  simp only [PointRef.ofXYZ] at h
  norm_num at h
  exact h

/-- C14, as the code has it: `atEndImpl` returns true exactly when the index is
greater than or equal to the number of points, and false otherwise.  For a
cursor that is not past the end this is exactly when the two are equal. -/
theorem atEndImpl_iff (self : drivers.qfit.iterators.sequential.Reader) :
    (self.atEndImpl = true ↔ self.getIndex ≥ self.m_reader.getNumPoints) ∧
    (self.atEndImpl = false ↔ self.getIndex < self.m_reader.getNumPoints) ∧
    (self.getIndex ≤ self.m_reader.getNumPoints →
      (self.atEndImpl = true ↔ self.getIndex = self.m_reader.getNumPoints)) := by
  refine ⟨?_, ?_, ?_⟩
  · simp only [drivers.qfit.iterators.sequential.Reader.atEndImpl, decide_eq_true_eq]
  · simp only [drivers.qfit.iterators.sequential.Reader.atEndImpl, decide_eq_false_iff_not]
    omega
  · intro h
    simp only [drivers.qfit.iterators.sequential.Reader.atEndImpl, decide_eq_true_eq]
    omega

/-- C14 as stated fails: with the index 5 and 3 points `atEndImpl` returns true,
and 5 is not 3. -/
theorem atEndImpl_counterexample :
    drivers.qfit.iterators.sequential.Reader.atEndImpl
        { m_reader := { m_offset := 0, m_size := 0, m_numPoints := 3 }, m_index := 5 } = true ∧
    drivers.qfit.iterators.sequential.Reader.getIndex
        { m_reader := { m_offset := 0, m_size := 0, m_numPoints := 3 }, m_index := 5 }
      ≠ drivers.qfit.Reader.getNumPoints { m_offset := 0, m_size := 0, m_numPoints := 3 } := by
  decide

/-- C15: the swap of a field of `n` bytes at `addr` leaves byte `i` of the field
holding what byte `n - 1 - i` held, for every `n` (odd, even or zero), and
leaves every byte outside the field as it was; for `n ≤ 1` nothing changes;
swapping twice gives the original memory back; `QFIT_SWAP_BE_TO_LE` is the
same swap with `n = sizeof(p)`. -/
theorem swap_reverses (mem : drivers.qfit.Memory) (addr : Int) (n : Nat) :
    (∀ i : Nat, i < n →
      drivers.qfit.QFIT_SWAP_BE_TO_LE_N mem addr n (addr + i) = mem (addr + ((n - 1 - i : Nat) : Int))) ∧
    (∀ a : Int, (a < addr ∨ addr + n ≤ a) → drivers.qfit.QFIT_SWAP_BE_TO_LE_N mem addr n a = mem a) ∧
    (n ≤ 1 → drivers.qfit.QFIT_SWAP_BE_TO_LE_N mem addr n = mem) ∧
    drivers.qfit.QFIT_SWAP_BE_TO_LE_N (drivers.qfit.QFIT_SWAP_BE_TO_LE_N mem addr n) addr n = mem ∧
    drivers.qfit.QFIT_SWAP_BE_TO_LE mem addr n = drivers.qfit.QFIT_SWAP_BE_TO_LE_N mem addr n := by
  refine ⟨?_, ?_, ?_, ?_, rfl⟩
  · intro i hi
    rw [swap_spec]
    have h : addr ≤ addr + (i : Int) ∧ addr + (i : Int) < addr + n := by omega
    rw [if_pos h]
    congr 1
    omega
  · intro a ha
    rw [swap_spec]
    have h : ¬ (addr ≤ a ∧ a < addr + n) := by omega
    rw [if_neg h]
  · intro hn
    funext a
    rw [swap_spec]
    split_ifs with h
    · congr 1
      omega
    · rfl
  · funext a
    rw [swap_spec]
    by_cases h : addr ≤ a ∧ a < addr + n
    · have h2 : addr ≤ addr + (addr + n - 1) - a ∧ addr + (addr + n - 1) - a < addr + n := by
        omega
      rw [if_pos h, swap_spec, if_pos h2]
      congr 1
      omega
    · rw [if_neg h, swap_spec, if_neg h]


/-- C17: `initialize` with the invert option set overwrites entries 0 to 11 with
the first three rows of the affine inverse and leaves entries 12 to 15 as they
were; without the option it leaves the matrix as it was.  Hence the matrix
`1 0 0 0 / 0 1 0 0 / 0 0 1 0 / 0 0 0 2`, which has the inverse
`1 0 0 0 / 0 1 0 0 / 0 0 1 0 / 0 0 0 1/2` and a last row other than `0 0 0 1`,
is stored as a matrix whose product with the input, on either side, is not the
identity. -/
theorem initialise_last_row :
    (∀ self : TransformationFilter, ∃ s : TransformationFilter,
      self.initialise = Except.ok s ∧
      (self.m_invert = true →
        s.m_matrix 12 = self.m_matrix 12 ∧ s.m_matrix 13 = self.m_matrix 13 ∧
        s.m_matrix 14 = self.m_matrix 14 ∧ s.m_matrix 15 = self.m_matrix 15 ∧
        ∀ (r : Fin 3) (c : Fin 4),
          s.m_matrix.get (4 * r.val + c.val)
            = Eigen.affineInverse (TransformationFilter.toMatrix4d self.m_matrix) r.castSucc c) ∧
      (self.m_invert = false → s.m_matrix = self.m_matrix)) ∧
    (∃ (M N : Transform) (s : TransformationFilter),
      matMul M N = Transform.identity ∧ matMul N M = Transform.identity ∧
      ¬ (M 12 = 0 ∧ M 13 = 0 ∧ M 14 = 0 ∧ M 15 = 1) ∧
      TransformationFilter.initialise { stageOf M with m_invert := true } = Except.ok s ∧
      matMul s.m_matrix M ≠ Transform.identity ∧
      matMul M s.m_matrix ≠ Transform.identity) := by
  constructor
  · intro self
    obtain ⟨s, hs, hm, -, -, -⟩ := initialise_ok self
    refine ⟨s, hs, ?_, ?_⟩
    · intro hinv
      rw [hinv] at hm
      simp only [if_true] at hm
      rw [hm]
      exact ⟨rfl, rfl, rfl, rfl, invert_rows self.m_matrix⟩
    · intro hinv
      rw [hinv] at hm
      simpa using hm
  · obtain ⟨s, hs, hm, -, -, -⟩ := initialise_ok { stageOf (perspectiveMatrix 2) with m_invert := true }
    simp only [if_true] at hm
    have hm2 : s.m_matrix = perspectiveMatrix 2 := by
      rw [hm]
      exact invert_perspective 2
    have hne : perspectiveMatrix (2 * 2) ≠ Transform.identity := by
      intro h
      have h15 := congrFun h 15
      simp [perspectiveMatrix, Transform.identity, Transform.ofList, Fin.coe_ofNat_eq_mod] at h15
      norm_num at h15
    refine ⟨perspectiveMatrix 2, perspectiveMatrix (1 / 2), s, ?_, ?_, ?_, hs, ?_, ?_⟩
    · rw [matMul_perspective]
      norm_num
      rfl
    · rw [matMul_perspective]
      norm_num
      rfl
    · intro h
      have h15 := h.2.2.2
      simp [perspectiveMatrix, Transform.ofList, Fin.coe_ofNat_eq_mod] at h15
    · rw [hm2, matMul_perspective]
      exact hne
    · rw [hm2, matMul_perspective]
      exact hne

/-- C18: the loop of `parse` ends at the first extraction that fails and what
follows in the text is never read: every text has a leading run of numeric
values, and the outcome is decided by the run alone.  `parse` succeeds exactly
when the run has sixteen values (the matrix is then the run); a shorter run of
`K` values gives the error naming `K`; a longer one gives the "Too many"
error.  So sixteen numbers followed by `and more 7` are accepted, and six
numbers followed by `x` and eleven more numbers give the error naming 6.  A
number too large for a `double` ends the run like any text that is not a
number: fifteen numbers followed by `1e400` give the error naming 15, one
number followed by `1e400 0 x 4` gives the error naming 1, and sixteen numbers
followed by `1e400` are accepted. -/
theorem parse_leading_run :
    (∀ text : List Char, ∃ vals, LeadingRun text vals) ∧
    (∀ (fs : FileUtils) (inp : List Char) (xform : Transform) (vals : List ℚ),
      LeadingRun (Transform.matrixText fs inp) vals →
        Transform.parse fs inp xform
          = (if vals.length = 16 then Except.ok (Transform.ofList vals)
            else if vals.length < 16 then Except.error (Transform.tooFewEntries vals.length)
            else Except.error Transform.tooManyEntries) ∧
        ((∃ m, Transform.parse fs inp xform = Except.ok m) ↔ vals.length = 16)) ∧
    Transform.parse noFiles
        "2 0 0 0\n0 1.5 0 0\n\t0 0  -1e1 0\r\n0 0 0 1 and more 7".toList Transform.identity
      = Except.ok (Transform.ofList sampleVals) ∧
    Transform.parse noFiles "2 0 0 0\n0 1.5 x 0 0 0 0 0 0 0 0 0 0 0".toList Transform.identity
      = Except.error
          "filters.transformation: Too few entries in transformation matrix: 6 (should be 16)" ∧
    Transform.parse noFiles
        "2 0 0 0\n0 1.5 0 0\n\t0 0  -1e1 0\r\n0 0 0 1e400".toList Transform.identity
      = Except.error
          "filters.transformation: Too few entries in transformation matrix: 15 (should be 16)" ∧
    Transform.parse noFiles "2 1e400 0 x 4".toList Transform.identity
      = Except.error
          "filters.transformation: Too few entries in transformation matrix: 1 (should be 16)" ∧
    Transform.parse noFiles
        "2 0 0 0\n0 1.5 0 0\n\t0 0  -1e1 0\r\n0 0 0 1 1e400".toList Transform.identity
      = Except.ok (Transform.ofList sampleVals) := by
  refine ⟨fun text => leadingRun_exists text.length text (le_refl _), ?_, ?_, ?_, ?_, ?_, ?_⟩
  · intro fs inp xform vals h
    have hp := parse_run fs inp xform vals h
    refine ⟨hp, ?_⟩
    rw [hp]
    by_cases h1 : vals.length = 16
    · simp [h1]
    · by_cases h2 : vals.length < 16 <;> simp [h1, h2]
  · have hrun : LeadingRun (Transform.matrixText noFiles
        "2 0 0 0\n0 1.5 0 0\n\t0 0  -1e1 0\r\n0 0 0 1 and more 7".toList) sampleVals :=
      layout_run " and more 7".toList rfl rfl sampleItems sampleVals
        (by decide) (by decide) sampleItems_values
    rw [parse_run noFiles _ _ sampleVals hrun]
    rfl
  · have hrun : LeadingRun (Transform.matrixText noFiles
        "2 0 0 0\n0 1.5 x 0 0 0 0 0 0 0 0 0 0 0".toList) (sampleVals.take 6) :=
      layout_run " x 0 0 0 0 0 0 0 0 0 0 0".toList rfl rfl (sampleItems.take 6)
        (sampleVals.take 6) (by decide) (by decide)
        (by rw [List.map_take, List.map_take, sampleItems_values])
    rw [parse_run noFiles _ _ _ hrun]
    rfl
  · have hrun : LeadingRun (Transform.matrixText noFiles
        "2 0 0 0\n0 1.5 0 0\n\t0 0  -1e1 0\r\n0 0 0 1e400".toList) (sampleVals.take 15) :=
      layout_run " 1e400".toList rfl readDouble_overflow (sampleItems.take 15)
        (sampleVals.take 15) (by decide) (by decide)
        (by rw [List.map_take, List.map_take, sampleItems_values])
    rw [parse_run noFiles _ _ _ hrun]
    rfl
  · have hrun : LeadingRun (Transform.matrixText noFiles "2 1e400 0 x 4".toList)
        (sampleVals.take 1) :=
      layout_run " 1e400 0 x 4".toList rfl readDouble_overflow_more (sampleItems.take 1)
        (sampleVals.take 1) (by decide) (by decide)
        (by rw [List.map_take, List.map_take, sampleItems_values])
    rw [parse_run noFiles _ _ _ hrun]
    rfl
  · have hrun : LeadingRun (Transform.matrixText noFiles
        "2 0 0 0\n0 1.5 0 0\n\t0 0  -1e1 0\r\n0 0 0 1 1e400".toList) sampleVals :=
      layout_run " 1e400".toList rfl readDouble_overflow sampleItems sampleVals
        (by decide) (by decide) sampleItems_values
    rw [parse_run noFiles _ _ sampleVals hrun]
    rfl

/-- C19: for matrices `A` and `B` and a point whose divisor under `B` is not
zero and whose image under `B` has a divisor under `A` that is not zero,
applying `B` and then `A` is applying the row-major product `A * B`. -/
theorem processOne_compose (A B : Transform) (point : PointRef)
    (hB : point Dimension.Id.X * B 12 + point Dimension.Id.Y * B 13
      + point Dimension.Id.Z * B 14 + B 15 ≠ 0)
    (hA : (stageOf B).processOne point Dimension.Id.X * A 12
      + (stageOf B).processOne point Dimension.Id.Y * A 13
      + (stageOf B).processOne point Dimension.Id.Z * A 14 + A 15 ≠ 0) :
    (stageOf A).processOne ((stageOf B).processOne point)
      = (stageOf (matMul A B)).processOne point := by
  have _ := hA
  obtain ⟨m0, m1, m2, m3, m4, m5, m6, m7, m8, m9, m10, m11, m12, m13, m14, m15⟩ :=
    matMul_entries A B
  have row := fun a b c d => compose_row (point Dimension.Id.X) (point Dimension.Id.Y)
    (point Dimension.Id.Z) _ _ _ _ a b c d (B 0) (B 1) (B 2) (B 3) (B 4) (B 5) (B 6) (B 7)
    (B 8) (B 9) (B 10) (B 11) (B 12) (B 13) (B 14) (B 15) hB rfl rfl rfl rfl
  funext dim
  rw [processOne_apply (stageOf A), processOne_apply (stageOf (matMul A B)),
    processOne_apply (stageOf B)]
  simp only [stageOf]
  rw [m0, m1, m2, m3, m4, m5, m6, m7, m8, m9, m10, m11, m12, m13, m14, m15]
  cases dim
  · simp only []
    rw [row (A 0) (A 1) (A 2) (A 3), row (A 12) (A 13) (A 14) (A 15)]
    rw [div_div_div_cancel_right₀ hB]
  · simp only []
    rw [row (A 4) (A 5) (A 6) (A 7), row (A 12) (A 13) (A 14) (A 15)]
    rw [div_div_div_cancel_right₀ hB]
  · simp only []
    rw [row (A 8) (A 9) (A 10) (A 11), row (A 12) (A 13) (A 14) (A 15)]
    rw [div_div_div_cancel_right₀ hB]
  · rfl

/-- C19 at `A = 2 0 0 1 / 0 1 0 2 / 0 1 1 3 / 0 0 0 1`,
`B = 1 0 0 0 / 0 1 0 0 / 0 0 1 0 / 1 0 0 1` and the point `(1, 2, 3)`. -/
theorem processOne_compose_witness :
    (stageOf affineMatrix).processOne
        ((stageOf projectiveMatrix).processOne (PointRef.ofXYZ 1 2 3))
      = (stageOf (matMul affineMatrix projectiveMatrix)).processOne (PointRef.ofXYZ 1 2 3) :=
  processOne_compose affineMatrix projectiveMatrix (PointRef.ofXYZ 1 2 3)
    (by simp [projectiveMatrix, Transform.ofList, PointRef.ofXYZ, Fin.coe_ofNat_eq_mod])
    (by simp [affineMatrix, Transform.ofList, Fin.coe_ofNat_eq_mod])

end pdal
